import Mathlib

/-!
# Verification of the expense time-bucketing and aggregation core

This file gives a shallow embedding, in Lean, of the pure computational core
of the expense-tracking client: the date utilities of
`src/frontend/src/utils/date.ts` (a.k.a. `timeBuckets.ts`) and the insight
generation of `src/frontend/src/components/Insights.tsx`, together with
theorems settling the specification claims about them.

Modelling conventions (JavaScript semantics made explicit):

* A JS number is modelled as `Option ℚ`: `some q` is an ordinary (exact)
  numeric value and `none` is `NaN`.  `x || 0` on numbers maps `NaN`, `0`
  and `undefined` to `0`.  Binary `+` propagates `NaN`.
* A JS `Date` object holds a time value: either a finite number of
  milliseconds since the Unix epoch (`some t`) or `NaN` — an *Invalid
  Date* — modelled as `none`.  The embedding is timezone-free (host local
  time = UTC), so `getDay`/`getFullYear`/`toLocaleDateString` and
  `toISOString` agree on the calendar day of an instant.
* Strings produced by date formatting (`toLocaleDateString`,
  `toISOString().slice(0, 10)`, the week-range label) are represented
  *structurally*, by the data the fixed format interpolates (month number,
  day number, year, ...).  The fixed "en-US" formats render these data
  injectively, so string equality in the program coincides with structural
  equality of the representations.  Free-form strings (category names,
  insight sentences, `toFixed` output) are kept as actual `String`s.
* JS object literals used as dictionaries (`Record<string, number>`) are
  modelled as insertion-ordered association lists: assignment to an
  existing key updates in place, assignment to a fresh key appends.
* Calendar arithmetic (`getDay`, `setDate`, `setHours(0,0,0,0)`,
  `getFullYear`, month/day rendering) is grounded in a verified proleptic
  Gregorian calendar: `civilOfDay` converts an epoch day number to a
  civil date (year, month, day) and `dayOfCivil` converts back; the
  round-trip theorem `dayOfCivil_civilOfDay` makes the rendering provably
  injective.
-/

deriving instance DecidableEq for Except

namespace ExpenseFlow

/-! ## JS numbers -/

/-- A JavaScript number: `some q` an ordinary value, `none` is `NaN`.
(Finite binary doubles are idealised as exact rationals; `±Infinity` does
not arise in the verified paths.) -/
abbrev JSNum := Option ℚ

/-- `x || 0` applied to a JS number: `NaN` and `0` are falsy. -/
def orZero : JSNum → ℚ
  | none => 0
  | some q => q

/-- JS `+` on numbers: `NaN` propagates. -/
def jsAdd : JSNum → JSNum → JSNum
  | some a, some b => some (a + b)
  | _, _ => none

/-! ## The proleptic Gregorian calendar

`civilOfDay` follows the classical Rata-Die decomposition of a day number
into completed 400-year cycles, centuries, 4-year quads and years; it is
the timezone-free meaning of the `Date` accessors `getFullYear`,
`getMonth`, `getDate` and of the calendar fields interpolated by
`toLocaleDateString` / `toISOString`. -/

/-- A civil (proleptic Gregorian) calendar date. -/
structure Civil where
  y : Int
  m : Nat
  d : Nat
deriving DecidableEq, Repr

/-- Gregorian leap-year rule. -/
def isLeap (y : Int) : Bool :=
  y % 4 = 0 && (y % 100 ≠ 0 || y % 400 = 0)

/-- Month and day-of-month from a (0-based) day of the year;
`l` is the leap bit (1 in a leap year). -/
def monthDayOfDoy (doy l : Nat) : Nat × Nat :=
  if doy < 31 then (1, doy + 1)
  else if doy < 59 + l then (2, doy - 30)
  else if doy < 90 + l then (3, doy - 58 - l)
  else if doy < 120 + l then (4, doy - 89 - l)
  else if doy < 151 + l then (5, doy - 119 - l)
  else if doy < 181 + l then (6, doy - 150 - l)
  else if doy < 212 + l then (7, doy - 180 - l)
  else if doy < 243 + l then (8, doy - 211 - l)
  else if doy < 273 + l then (9, doy - 242 - l)
  else if doy < 304 + l then (10, doy - 272 - l)
  else if doy < 334 + l then (11, doy - 303 - l)
  else (12, doy - 333 - l)

/-- Cumulative days before month `m` in a non-leap year. -/
def cumBefore (m : Nat) : Nat :=
  if m = 1 then 0 else if m = 2 then 31 else if m = 3 then 59
  else if m = 4 then 90 else if m = 5 then 120 else if m = 6 then 151
  else if m = 7 then 181 else if m = 8 then 212 else if m = 9 then 243
  else if m = 10 then 273 else if m = 11 then 304 else 334

/-- Civil date of an epoch day number (days since 1970-01-01, day 0). -/
def civilOfDay (z : Int) : Civil :=
  let d0 : Int := z + 719162
  let a : Int := d0 / 146097
  let r1 : Nat := (d0 % 146097).toNat
  let b : Nat := min (r1 / 36524) 3
  let r2 : Nat := r1 - 36524 * b
  let c : Nat := r2 / 1461
  let r3 : Nat := r2 % 1461
  let e : Nat := min (r3 / 365) 3
  let doy : Nat := r3 - 365 * e
  let y : Int := 400 * a + 100 * b + 4 * c + (e : Int) + 1
  let md := monthDayOfDoy doy (if isLeap y then 1 else 0)
  ⟨y, md.1, md.2⟩

/-- Epoch day number of a civil date (inverse of `civilOfDay`). -/
def dayOfCivil (c : Civil) : Int :=
  let yp : Int := c.y - 1
  let l : Int := if isLeap c.y then 1 else 0
  let leapAdj : Int := if 2 < c.m then l else 0
  365 * yp + yp / 4 - yp / 100 + yp / 400
    + (cumBefore c.m : Int) + leapAdj + (c.d : Int) - 1 - 719162

theorem isLeap_iff (y : Int) :
    isLeap y = true ↔ (y % 4 = 0 ∧ (y % 100 ≠ 0 ∨ y % 400 = 0)) := by
  simp [isLeap]

/-- `monthDayOfDoy` produces a month in `1..12`, a day `≥ 1`, and its output
reconstructs the day of the year through the cumulative-days table. -/
theorem monthDayOfDoy_spec (doy l : Nat) (hl : l ≤ 1) (h : doy < 365 + l)
    (m d : Nat) (hmd : monthDayOfDoy doy l = (m, d)) :
    1 ≤ m ∧ m ≤ 12 ∧ 1 ≤ d ∧ d ≤ 31 ∧
    ((cumBefore m : Int) + (if 2 < m then (l : Int) else 0)
      + (d : Int) - 1 = (doy : Int)) := by
  unfold monthDayOfDoy at hmd
  by_cases h1 : doy < 31
  · rw [if_pos h1] at hmd
    injection hmd with hm hd; subst hm; subst hd
    simp [cumBefore]; omega
  rw [if_neg h1] at hmd
  by_cases h2 : doy < 59 + l
  · rw [if_pos h2] at hmd
    injection hmd with hm hd; subst hm; subst hd
    simp [cumBefore]; omega
  rw [if_neg h2] at hmd
  by_cases h3 : doy < 90 + l
  · rw [if_pos h3] at hmd
    injection hmd with hm hd; subst hm; subst hd
    simp [cumBefore]; omega
  rw [if_neg h3] at hmd
  by_cases h4 : doy < 120 + l
  · rw [if_pos h4] at hmd
    injection hmd with hm hd; subst hm; subst hd
    simp [cumBefore]; omega
  rw [if_neg h4] at hmd
  by_cases h5 : doy < 151 + l
  · rw [if_pos h5] at hmd
    injection hmd with hm hd; subst hm; subst hd
    simp [cumBefore]; omega
  rw [if_neg h5] at hmd
  by_cases h6 : doy < 181 + l
  · rw [if_pos h6] at hmd
    injection hmd with hm hd; subst hm; subst hd
    simp [cumBefore]; omega
  rw [if_neg h6] at hmd
  by_cases h7 : doy < 212 + l
  · rw [if_pos h7] at hmd
    injection hmd with hm hd; subst hm; subst hd
    simp [cumBefore]; omega
  rw [if_neg h7] at hmd
  by_cases h8 : doy < 243 + l
  · rw [if_pos h8] at hmd
    injection hmd with hm hd; subst hm; subst hd
    simp [cumBefore]; omega
  rw [if_neg h8] at hmd
  by_cases h9 : doy < 273 + l
  · rw [if_pos h9] at hmd
    injection hmd with hm hd; subst hm; subst hd
    simp [cumBefore]; omega
  rw [if_neg h9] at hmd
  by_cases h10 : doy < 304 + l
  · rw [if_pos h10] at hmd
    injection hmd with hm hd; subst hm; subst hd
    simp [cumBefore]; omega
  rw [if_neg h10] at hmd
  by_cases h11 : doy < 334 + l
  · rw [if_pos h11] at hmd
    injection hmd with hm hd; subst hm; subst hd
    simp [cumBefore]; omega
  rw [if_neg h11] at hmd
  injection hmd with hm hd; subst hm; subst hd
  simp [cumBefore]; omega

set_option maxHeartbeats 1600000 in
theorem dayOfCivil_aux (a : Int) (r1 b r2 c r3 e doy : Nat) (y : Int)
    (hr1 : r1 < 146097) (hb : b = min (r1 / 36524) 3) (hr2 : r2 = r1 - 36524 * b)
    (hc : c = r2 / 1461) (hr3 : r3 = r2 % 1461) (he : e = min (r3 / 365) 3)
    (hdoy : doy = r3 - 365 * e)
    (hy : y = 400 * a + 100 * b + 4 * c + (e : Int) + 1) :
    dayOfCivil ⟨y, (monthDayOfDoy doy (if isLeap y then 1 else 0)).1,
        (monthDayOfDoy doy (if isLeap y then 1 else 0)).2⟩
      = 146097 * a + (r1 : Int) - 719162 := by
  have hble : 36524 * b ≤ r1 := by omega
  have hr2lt : r2 < 36525 := by omega
  have hr2b : b < 3 → r2 < 36524 := by omega
  have hcle : c ≤ 24 := by omega
  have hr3lt : r3 < 1461 := by omega
  have hsplit2 : r2 = 1461 * c + r3 := by omega
  have hele : e ≤ 3 := by omega
  have hdoylt : doy < 366 := by omega
  have hsplit3 : r3 = 365 * e + doy := by omega
  have hdoy365 : e < 3 → doy < 365 := by omega
  have hleap : isLeap y = true ↔ (e = 3 ∧ (c ≠ 24 ∨ b = 3)) := by
    rw [isLeap_iff]; omega
  set lb : Nat := if isLeap y then 1 else 0 with hlb
  have hlb1 : lb ≤ 1 := by rw [hlb]; split_ifs <;> omega
  have hdb : doy < 365 + lb := by
    rcases Nat.lt_or_ge doy 365 with hx | hx
    · omega
    · have h365 : doy = 365 := by omega
      have hLt : isLeap y = true := hleap.mpr (by omega)
      rw [hlb, if_pos hLt]
      omega
  obtain ⟨m, d, hmd⟩ : ∃ m d, monthDayOfDoy doy lb = (m, d) := ⟨_, _, rfl⟩
  obtain ⟨hm1, hm2, hd1, hd2, hrec⟩ := monthDayOfDoy_spec doy lb hlb1 hdb m d hmd
  rw [hmd]
  show dayOfCivil ⟨y, m, d⟩ = 146097 * a + (r1 : Int) - 719162
  have hyp : y - 1 = 400 * a + 100 * (b : Int) + 4 * c + e := by omega
  have hd4 : (y - 1) / 4 = 100 * a + 25 * (b : Int) + c := by omega
  have hd100 : (y - 1) / 100 = 4 * a + (b : Int) := by omega
  have hd400 : (y - 1) / 400 = a := by omega
  simp only [dayOfCivil]
  have hli : (if isLeap y then (1:Int) else 0) = (lb : Int) := by
    rw [hlb]; split_ifs <;> simp
  simp only [hli]
  by_cases h2 : 2 < m
  · rw [if_pos h2] at hrec ⊢
    omega
  · rw [if_neg h2] at hrec ⊢
    omega

/-- The calendar round trip: converting an epoch day number to a civil date
and back is the identity.  In particular `civilOfDay` is injective. -/
theorem dayOfCivil_civilOfDay (z : Int) : dayOfCivil (civilOfDay z) = z := by
  simp only [civilOfDay]
  have h := dayOfCivil_aux ((z + 719162) / 146097) ((z + 719162) % 146097).toNat
    _ _ _ _ _ _ _ (by omega) rfl rfl rfl rfl rfl rfl rfl
  omega

theorem civilOfDay_inj {z1 z2 : Int} (h : civilOfDay z1 = civilOfDay z2) :
    z1 = z2 := by
  have := dayOfCivil_civilOfDay z1
  rw [h, dayOfCivil_civilOfDay] at this
  omega

/-! ## JS `Date` values -/

def msPerDay : Int := 86400000

/-- A JS `Date` time value: `some t` (milliseconds since the epoch), or
`none` for an *Invalid Date* (time value `NaN`). -/
abbrev JSDate := Option Int

/-- The (UTC = local) calendar day number an instant falls on. -/
def dayNum (t : Int) : Int := t / msPerDay

/-- `getDay()` on a valid date: 0 = Sunday .. 6 = Saturday. -/
def jsWeekday (t : Int) : Int := (dayNum t + 4) % 7

/-- `getFullYear()` on a valid date. -/
def jsFullYear (t : Int) : Int := (civilOfDay (dayNum t)).y

/-- `setHours(0, 0, 0, 0)`: truncate an instant to midnight. -/
def setMidnight (t : Int) : Int := dayNum t * msPerDay

/-- `d.setDate(d.getDate() + k)`: JS normalises day-of-month overflow, so
this shifts the instant by exactly `k` calendar days. -/
def addDays (t k : Int) : Int := t + k * msPerDay

/-! ## `timeBuckets.ts`: date helpers -/

/-- `getMonday`: shift a date back to the most recent Monday
(`diff = (day === 0 ? -6 : 1) - day`) and zero the time of day. -/
def getMonday (t : Int) : Int :=
  let day := jsWeekday t
  let diff := (if day = 0 then -6 else 1) - day
  setMidnight (addDays t diff)

/-- The data interpolated into the week-range label
`"<MonStart> <DayStart> – <MonEnd> <DayEnd>, <Year>"` by
`getWeekRangeLabel`; the fixed `"en-US"` short-month/numeric-day format
renders these fields injectively, so label-string equality coincides with
equality of this structure. -/
structure WeekLabel where
  sm : Nat
  sd : Nat
  em : Nat
  ed : Nat
  y  : Int
deriving DecidableEq, Repr

/-- A week-label string: the label of a valid date, the distinct string an
Invalid Date renders to (`"Invalid Date – Invalid Date, NaN"`), or — as a
UI selection only — the empty string (no week selected, falsy). -/
inductive WeekStr where
  | lab (l : WeekLabel)
  | invalid
  | empty
deriving DecidableEq, Repr

/-- `getWeekRangeLabel` on a valid date: label of the Monday–Sunday week. -/
def getWeekRangeLabel (t : Int) : WeekLabel :=
  let start := getMonday t
  let stop := addDays start 6
  let cs := civilOfDay (dayNum start)
  let ce := civilOfDay (dayNum stop)
  ⟨cs.m, cs.d, ce.m, ce.d, cs.y⟩

/-- `getWeekRangeLabel` on an arbitrary `Date` value. -/
def getWeekRangeLabelV : JSDate → WeekStr
  | none => .invalid
  | some t => .lab (getWeekRangeLabel t)

/-- The string `d.toLocaleDateString("en-US", {month: "short", year:
"numeric"})` (e.g. `"Oct 2025"`), or `"Invalid Date"`, or — as a UI
selection only — the empty string. -/
inductive MonthStr where
  | lab (m : Nat) (y : Int)
  | invalid
  | empty
deriving DecidableEq, Repr

/-- Month-plus-year label of a `Date` value. -/
def monthStrOf : JSDate → MonthStr
  | none => .invalid
  | some t => .lab (civilOfDay (dayNum t)).m (civilOfDay (dayNum t)).y

/-- The string `d.getFullYear().toString()`: a year numeral, `"NaN"` for an
Invalid Date, or — as a UI selection only — the empty string. -/
inductive YearStr where
  | num (y : Int)
  | nan
  | empty
deriving DecidableEq, Repr

/-- Year string of a `Date` value. -/
def yearStrOf : JSDate → YearStr
  | none => .nan
  | some t => .num (jsFullYear t)

/-! ## `timeBuckets.ts`: records and date parsing -/

/-- The raw `date` field of a stored expense record.
`str p` is a non-empty string whose standard parse (`new Date(s)`) yields
the date value `p` — `none` exactly when the string is unparseable. -/
inductive RawDate where
  | missing            -- field absent or falsy (`undefined`, `null`, `""`, `0`)
  | tsObj (t : Int)    -- store-native timestamp object exposing `toDate()`
  | str (p : JSDate)   -- non-empty string
  | other              -- any other truthy shape (no `toDate`, not a string)
deriving DecidableEq, Repr

/-- An expense record as consumed by the aggregation code: `amount` is the
value of `Number(exp.amount)` (`none` = `NaN`), `category` is the raw
`category` field (`none` = absent or falsy). -/
structure Exp where
  date : RawDate
  amount : JSNum
  category : Option String
deriving DecidableEq, Repr

/-- `parseExpenseDate`: `null` for a falsy `date` field, `exp.date.toDate()`
for a timestamp object, `new Date(exp.date)` for a string, `null` otherwise. -/
def parseExpenseDate (e : Exp) : Option JSDate :=
  match e.date with
  | .missing => none
  | .tsObj t => some (some t)
  | .str p => some p
  | .other => none

/-! ## JS objects used as dictionaries -/

/-- `obj[k] = v` on a JS object used as a dictionary: assignment to an
existing key updates it in place, a fresh key is appended at the end
(JS objects preserve string-key insertion order). -/
def updMap {K V : Type} [DecidableEq K] : List (K × V) → K → V → List (K × V)
  | [], k, v => [(k, v)]
  | (k0, v0) :: t, k, v =>
      if k0 = k then (k, v) :: t else (k0, v0) :: updMap t k v

/-- `obj[k]`: the stored value, or `none` for `undefined`. -/
def lookupMap {K V : Type} [DecidableEq K] : List (K × V) → K → Option V
  | [], _ => none
  | (k0, v0) :: t, k => if k0 = k then some v0 else lookupMap t k

/-- `(obj[k] || 0)` on a number-valued object: `undefined`, `NaN` and `0`
are all falsy and give `0`. -/
def getOrZero {K : Type} [DecidableEq K] (m : List (K × JSNum)) (k : K) : ℚ :=
  match lookupMap m k with
  | none => 0
  | some v => orZero v

/-- `Object.keys`. -/
def keysOf {K V : Type} (m : List (K × V)) : List K := m.map Prod.fst

/-! ## `timeBuckets.ts`: filtering -/

/-- The three view modes. -/
inductive ViewMode where
  | week
  | month
  | year
deriving DecidableEq, Repr

/-- `filterForPie`: keep records whose parsed date is truthy and whose
week/month/year label matches the selected one exactly. -/
def filterForPie (es : List Exp) (vm : ViewMode)
    (selectedWeek : WeekStr) (selectedMonth : MonthStr)
    (selectedYear : YearStr) : List Exp :=
  es.filter fun e =>
    match parseExpenseDate e with
    | none => false
    | some d =>
        match vm with
        | .week => getWeekRangeLabelV d = selectedWeek
        | .month => monthStrOf d = selectedMonth
        | .year => yearStrOf d = selectedYear

/-- `filterForLine`: exact week in week mode, all months of the selected
year in month mode, all records in year mode. -/
def filterForLine (es : List Exp) (vm : ViewMode)
    (selectedWeek : WeekStr) (selectedMonthYear : YearStr) : List Exp :=
  es.filter fun e =>
    match parseExpenseDate e with
    | none => false
    | some d =>
        match vm with
        | .week => getWeekRangeLabelV d = selectedWeek
        | .month => yearStrOf d = selectedMonthYear
        | .year => true

/-! ## `timeBuckets.ts`: available-option builders -/

/-- JS `Array.from(new Set(xs))`: deduplicate keeping first occurrences in
insertion order. -/
def dedupFirst {α : Type} [DecidableEq α] : List α → List α → List α
  | [], _ => []
  | a :: t, seen => if a ∈ seen then dedupFirst t seen
      else a :: dedupFirst t (a :: seen)

/-- The order induced by a JS numeric comparator `(a, b) => f(a) - f(b)`.
On real numeric keys this is `≤` on the key values.  A `NaN` key makes the
JS comparator inconsistent and ECMA-262 then leaves the sort order
unspecified; the model resolves that freedom by placing `NaN` keys first. -/
def jsKeyLe : Option Int → Option Int → Bool
  | none, _ => true
  | some _, none => false
  | some x, some y => x ≤ y

/-- JS `Array.prototype.sort` (ES2019+: stable) by a numeric sort key,
`none` standing for `NaN`. -/
def jsSortBy {α : Type} (f : α → Option Int) (l : List α) : List α :=
  l.mergeSort fun a b => jsKeyLe (f a) (f b)

/-- `new Date("<MMM> <YYYY>").getTime()`: the first of that month, or `NaN`
for the string `"Invalid Date"` or the empty string. -/
def monthStrTime : MonthStr → Option Int
  | .lab m y => if 1 ≤ m ∧ m ≤ 12 then some (dayOfCivil ⟨y, m, 1⟩ * msPerDay)
      else none
  | _ => none

/-- `getAvailableMonthsInYear`: the distinct `"<MMM> <YYYY>"` labels of the
records falling in the given year, sorted chronologically. -/
def getAvailableMonthsInYear (es : List Exp) (year : YearStr) :
    List MonthStr :=
  if year = .empty then []
  else
    jsSortBy monthStrTime
      (dedupFirst
        ((((es.map parseExpenseDate).filter Option.isSome).map
            (fun d => d.getD none)).filter
              (fun d => yearStrOf d = year) |>.map monthStrOf) [])

/-! ## `timeBuckets.ts`: aggregations -/

/-- `exp.category || "Uncategorized"`: fall back on a falsy category. -/
def catOf (e : Exp) : String :=
  match e.category with
  | some c => c
  | none => "Uncategorized"

/-- `buildCategoryTotals`: per-category sums.  A falsy `category` falls
back to `"Uncategorized"`; the amount is `Number(exp.amount) || 0`, so a
`NaN` amount contributes `0` and every stored value is a plain number. -/
def buildCategoryTotals (es : List Exp) : List (String × JSNum) :=
  es.foldl
    (fun out e =>
      updMap out (catOf e) (some (getOrZero out (catOf e) + orZero e.amount)))
    []

/-- A key of the bucket-totals object built by `buildDateTotals`.  The five
constructors render to pairwise distinct strings: `"YYYY-MM-DD"` (ISO date
slice), `"Jan"`‥`"Dec"` (short month name), a year numeral, `"NaN"`
(`getFullYear` of an Invalid Date), `"Invalid Date"` (locale rendering of
an Invalid Date). -/
inductive BKey where
  | iso (y : Int) (m d : Nat)
  | mon (m : Nat)
  | yr (y : Int)
  | yrNaN
  | monInvalid
deriving DecidableEq, Repr

/-- The bucket key of one record's date value under a view mode.
`toISOString()` *throws* a `RangeError` on an Invalid Date (modelled as
`Except.error`); `toLocaleDateString` renders `"Invalid Date"` and
`getFullYear().toString()` renders `"NaN"` instead. -/
def bucketKeyOf (vm : ViewMode) (d : JSDate) : Except Unit BKey :=
  match vm, d with
  | .week, some t =>
      .ok (.iso (civilOfDay (dayNum t)).y (civilOfDay (dayNum t)).m
        (civilOfDay (dayNum t)).d)
  | .week, none => .error ()
  | .month, some t => .ok (.mon (civilOfDay (dayNum t)).m)
  | .month, none => .ok .monInvalid
  | .year, some t => .ok (.yr (jsFullYear t))
  | .year, none => .ok .yrNaN

/-- One `forEach` step of `buildDateTotals`: skip a `null` parse, compute
the bucket key, then `out[key] = (out[key] || 0) + Number(exp.amount)` —
note the *unguarded* `Number(exp.amount)`, which is `NaN` for a
non-numeric amount. -/
def buildDateTotalsStep (vm : ViewMode) (out : List (BKey × JSNum))
    (e : Exp) : Except Unit (List (BKey × JSNum)) :=
  match parseExpenseDate e with
  | none => .ok out
  | some d =>
      match bucketKeyOf vm d with
      | .error u => .error u
      | .ok key => .ok (updMap out key (jsAdd (some (getOrZero out key)) e.amount))

/-- The `forEach` loop of `buildDateTotals`. -/
def buildDateTotalsAux (vm : ViewMode) :
    List Exp → List (BKey × JSNum) → Except Unit (List (BKey × JSNum))
  | [], out => .ok out
  | e :: t, out =>
      match buildDateTotalsStep vm out e with
      | .error u => .error u
      | .ok out2 => buildDateTotalsAux vm t out2

/-- The canonical month keys `"Jan"`‥`"Dec"`. -/
def monthOrder : List BKey :=
  (List.range 12).map fun i => .mon (i + 1)

/-- Month-view zero filling: `if (!(m in out)) out[m] = 0` for each of the
twelve month names, in calendar order. -/
def monthFill (out : List (BKey × JSNum)) : List (BKey × JSNum) :=
  monthOrder.foldl
    (fun o k => if (lookupMap o k).isSome then o else updMap o k (some 0)) out

/-- `buildDateTotals`: bucket totals keyed per view mode, with the full
twelve-month axis ensured in month view. -/
def buildDateTotals (es : List Exp) (vm : ViewMode) :
    Except Unit (List (BKey × JSNum)) :=
  match buildDateTotalsAux vm es [] with
  | .error u => .error u
  | .ok out => .ok (if vm = .month then monthFill out else out)

/-! ## `timeBuckets.ts`: axis sorting -/

/-- `order.indexOf(key)` against the fixed `["Jan", …, "Dec"]` table:
`m - 1` for a short month name, `-1` for any other string. -/
def monthIdx : BKey → Int
  | .mon m => if 1 ≤ m ∧ m ≤ 12 then (m : Int) - 1 else -1
  | _ => -1

/-- `Number(key)`: the year value for a year numeral, `NaN` otherwise. -/
def yearNumOf : BKey → Option Int
  | .yr y => some y
  | _ => none

/-- `new Date(key).getTime()` for a week key: an ISO `"YYYY-MM-DD"` string
parses to UTC midnight of that civil date (when the components denote a
real calendar date), anything else to `NaN`. -/
def weekKeyTime : BKey → Option Int
  | .iso y m d =>
      if civilOfDay (dayOfCivil ⟨y, m, d⟩) = ⟨y, m, d⟩ then
        some (dayOfCivil ⟨y, m, d⟩ * msPerDay)
      else none
  | _ => none

/-- `sortXAxisKeys`: order the bucket keys for the chart axis. -/
def sortXAxisKeys (vm : ViewMode) (obj : List (BKey × JSNum)) : List BKey :=
  match vm with
  | .month => (keysOf obj).mergeSort fun a b => monthIdx a ≤ monthIdx b
  | .year => jsSortBy yearNumOf (keysOf obj)
  | .week => jsSortBy weekKeyTime (keysOf obj)

/-! ## `Number.prototype.toFixed` -/

/-- The `f` decimal digits of `r` (`r < 10^f`), most significant first. -/
def fracDigits (r f : Nat) : List Char :=
  (List.range f).map fun i => Nat.digitChar (r / 10 ^ (f - 1 - i) % 10)

/-- Decimal rendering of the scaled integer `n` with `f` digits after the
point. -/
def jsToFixedStr (n : Int) (f : Nat) : String :=
  let a : Nat := n.natAbs
  let ip : Nat := a / 10 ^ f
  let fr : Nat := a % 10 ^ f
  (if n < 0 then "-" else "") ++ Nat.repr ip ++
    (if f = 0 then "" else "." ++ String.mk (fracDigits fr f))

/-- `x.toFixed(f)`: render `x` with exactly `f` digits after the decimal
point.  Per ECMA-262, the rendered integer `n` minimises `|n / 10^f − x|`,
the larger `n` winning ties — that is, `n = ⌊x·10^f + 1/2⌋`.  (The binary
double and negative-zero subtleties of the host are idealised away.) -/
def jsToFixed (x : ℚ) (f : Nat) : String :=
  jsToFixedStr ⌊x * 10 ^ f + 1 / 2⌋ f

/-- The number of digits after the (last) decimal point of a rendered
number, or `none` if it has no decimal point. -/
def decimalsAfterDot (s : String) : Option Nat :=
  if ('.' : Char) ∈ s.data then
    some ((s.data.reverse.takeWhile fun c => c ≠ '.').length)
  else none

/-! ## `Insights.tsx`: the insight engine

The analysis effect of the `Insights` component, as a pure function of the
fetched record list, the view mode and the selected period.  Statements
are modelled structurally (constructor = fixed template, fields = the
interpolated data); `renderStmt` below is the template instantiation. -/

/-- Key of `totalsByDate`: `d.toDateString()` — a calendar day, or the
string `"Invalid Date"`. -/
inductive DKey where
  | day (z : Int)
  | invalid
deriving DecidableEq, Repr

/-- Key of `totalsByWeekday`:
`d.toLocaleDateString("en-US", {weekday: "long"})` — a weekday name
(0 = Sunday ‥ 6 = Saturday), or `"Invalid Date"`. -/
inductive WdKey where
  | wd (n : Int)
  | invalid
deriving DecidableEq, Repr

/-- `d.toDateString()` as a map key. -/
def toDateKey : JSDate → DKey
  | none => .invalid
  | some t => .day (dayNum t)

/-- The weekday-name map key of a date value. -/
def weekdayKey : JSDate → WdKey
  | none => .invalid
  | some t => .wd (jsWeekday t)

/-- Sum of the values of a number-valued object
(`Object.values(m).reduce((a, b) => a + b, 0)`; every stored value is a
plain number here, so the reduction is an exact rational sum). -/
def sumValsQ {K : Type} (m : List (K × JSNum)) : ℚ :=
  (m.map fun p => orZero p.2).sum

/-- `es.reduce((sum, e) => sum + (Number(e.amount) || 0), 0)`. -/
def sumAmounts (es : List Exp) : ℚ :=
  (es.map fun e => orZero e.amount).sum

/-- The single `forEach` pass building `totalsByDate`, `totalsByCategory`
and `totalsByWeekday` over the period-filtered records. -/
def insightAgg (filtered : List Exp) :
    List (DKey × JSNum) × List (String × JSNum) × List (WdKey × JSNum) :=
  filtered.foldl
    (fun acc e =>
      match parseExpenseDate e with
      | none => acc
      | some d =>
          let amt : ℚ := orZero e.amount
          (updMap acc.1 (toDateKey d) (some (getOrZero acc.1 (toDateKey d) + amt)),
           updMap acc.2.1 (catOf e) (some (getOrZero acc.2.1 (catOf e) + amt)),
           updMap acc.2.2 (weekdayKey d)
             (some (getOrZero acc.2.2 (weekdayKey d) + amt))))
    ([], [], [])

/-- `Object.entries(m).sort((a, b) => b[1] - a[1])[0]`: the sort is stable
(ES2019), so the first element is the earliest-inserted entry of maximal
value. -/
def pickTop {K : Type} (m : List (K × JSNum)) : Option (K × JSNum) :=
  m.foldl
    (fun acc p =>
      match acc with
      | none => some p
      | some q => if orZero q.2 < orZero p.2 then some p else some q)
    none

/-- The week-over-week delta classification. -/
inductive DeltaKind where
  | steady
  | started
  | up (pct : String)
  | down (pct : String)
  | same
deriving DecidableEq, Repr

/-- `new Date(startPart + ", " + yearStr)` where `startPart` and `yearStr`
are split out of the selected week's label string: for a well-formed label
this parses `"<MMM> <D>, <YYYY>"` as local midnight of that civil date
(Invalid if the fields do not denote a real calendar date); for the
Invalid-Date label or the empty string the parse is Invalid. -/
def selMondayInstant : WeekStr → JSDate
  | .lab l =>
      if civilOfDay (dayOfCivil ⟨l.y, l.sm, l.sd⟩) = ⟨l.y, l.sm, l.sd⟩ then
        some (dayOfCivil ⟨l.y, l.sm, l.sd⟩ * msPerDay)
      else none
  | _ => none

/-- The week-over-week comparison of `Insights.tsx`: re-derive the selected
week's Monday from its label, step back 7 days, filter the *full* record
set by the previous week's label, and classify.  (The `prevTotal = 0 >
totalSpent` corner would be `-Infinity` in JS; it is unreachable for the
non-negative totals the claims quantify over.) -/
def weekDelta (expenses : List Exp) (selectedWeek : WeekStr)
    (totalSpent : ℚ) : DeltaKind :=
  let selectedStart := selMondayInstant selectedWeek
  let prevStart : JSDate := selectedStart.map fun t => addDays t (-7)
  let prevLabel := getWeekRangeLabelV prevStart
  let prevWeekExpenses := expenses.filter fun e =>
    match parseExpenseDate e with
    | none => false
    | some d => getWeekRangeLabelV d = prevLabel
  let prevTotal : ℚ := sumAmounts prevWeekExpenses
  if prevTotal = 0 ∧ totalSpent = 0 then .steady
  else if prevTotal = 0 ∧ 0 < totalSpent then .started
  else
    let pct : ℚ := (totalSpent - prevTotal) / prevTotal * 100
    if 0 < pct then .up (jsToFixed pct 1)
    else if pct < 0 then .down (jsToFixed |pct| 1)
    else .same

/-- One insight statement: constructor = fixed sentence template, fields =
the data interpolated into it (see `renderStmt`). -/
inductive Stmt where
  | noData
  | selectWeek
  | noPeriod (vm : ViewMode)
  | snapWeek (w : WeekStr)
  | snapMonth (m : MonthStr)
  | snapYear (y : YearStr)
  | topCat (name : String) (amt : String)
  | busiest (w : WdKey) (amt : String)
  | total (amt : String)
  | avgDay (amt : String)
  | delta (k : DeltaKind)
  | noSpend (ds : List WdKey)
deriving DecidableEq, Repr

/-- The fixed `Monday ‥ Sunday` weekday-name table of the no-spend check. -/
def allWeekdays : List WdKey :=
  [.wd 1, .wd 2, .wd 3, .wd 4, .wd 5, .wd 6, .wd 0]

/-- The fixed-order statement assembly of `Insights.tsx` (its `list`
pushes): snapshot line, top category, busiest day, total, average per
day, then — week mode only — the delta line and the no-spend-days line. -/
def assembleStmts (viewMode : ViewMode) (selectedWeek : WeekStr)
    (selectedMonth : MonthStr) (selectedYear : YearStr)
    (topCategory : Option (String × JSNum)) (topDay : Option (WdKey × JSNum))
    (totalSpent avgPerDay : ℚ) (dk : DeltaKind)
    (noSpendDays : List WdKey) : List Stmt :=
  (if viewMode = .week ∧ selectedWeek ≠ .empty then
    [.snapWeek selectedWeek] else [])
  ++ (if viewMode = .month ∧ selectedMonth ≠ .empty then
    [.snapMonth selectedMonth] else [])
  ++ (if viewMode = .year ∧ selectedYear ≠ .empty then
    [.snapYear selectedYear] else [])
  ++ (match topCategory with
      | some p => [.topCat p.1 (jsToFixed (orZero p.2) 2)]
      | none => [])
  ++ (match topDay with
      | some p => [.busiest p.1 (jsToFixed (orZero p.2) 2)]
      | none => [])
  ++ [.total (jsToFixed totalSpent 2), .avgDay (jsToFixed avgPerDay 2)]
  ++ (if viewMode = .week then [.delta dk] else [])
  ++ (if viewMode = .week then
        (if noSpendDays = [] then [] else [.noSpend noSpendDays])
      else [])

/-- The period filter of `Insights.tsx` (its `filtered` array): the guarded
`if` ladder over the view mode and a truthy selection; when no branch
matches, `filtered` keeps its `[]` initialiser. -/
def periodFilter (expenses : List Exp) (viewMode : ViewMode)
    (selectedWeek : WeekStr) (selectedMonth : MonthStr)
    (selectedYear : YearStr) : List Exp :=
  if viewMode = .week ∧ selectedWeek ≠ .empty then
    expenses.filter fun e =>
      match parseExpenseDate e with
      | none => false
      | some d => getWeekRangeLabelV d = selectedWeek
  else if viewMode = .month ∧ selectedMonth ≠ .empty then
    expenses.filter fun e =>
      match parseExpenseDate e with
      | none => false
      | some d => monthStrOf d = selectedMonth
  else if viewMode = .year ∧ selectedYear ≠ .empty then
    expenses.filter fun e =>
      match parseExpenseDate e with
      | none => false
      | some d => yearStrOf d = selectedYear
  else []

/-- The insight list computed by the analysis effect of `Insights.tsx`. -/
def buildInsights (expenses : List Exp) (viewMode : ViewMode)
    (selectedWeek : WeekStr) (selectedMonth : MonthStr)
    (selectedYear : YearStr) : List Stmt :=
  if expenses = [] then [.noData]
  else if viewMode = .week ∧ selectedWeek = .empty then [.selectWeek]
  else
    let filtered : List Exp :=
      periodFilter expenses viewMode selectedWeek selectedMonth selectedYear
    if filtered = [] then [.noPeriod viewMode]
    else
      let agg := insightAgg filtered
      let totalsByDate := agg.1
      let totalsByCategory := agg.2.1
      let totalsByWeekday := agg.2.2
      let totalSpent : ℚ := sumValsQ totalsByDate
      let daysCount : Nat :=
        if totalsByDate.length = 0 then 1 else totalsByDate.length
      let avgPerDay : ℚ := totalSpent / (daysCount : ℚ)
      assembleStmts viewMode selectedWeek selectedMonth selectedYear
        (pickTop totalsByCategory) (pickTop totalsByWeekday)
        totalSpent avgPerDay
        (weekDelta expenses selectedWeek totalSpent)
        (allWeekdays.filter fun w => getOrZero totalsByWeekday w = 0)

/-! ## Rendering the structured statements to their exact strings -/

/-- The fixed English short month names. -/
def monthShortName (m : Nat) : String :=
  if m = 1 then "Jan" else if m = 2 then "Feb" else if m = 3 then "Mar"
  else if m = 4 then "Apr" else if m = 5 then "May" else if m = 6 then "Jun"
  else if m = 7 then "Jul" else if m = 8 then "Aug" else if m = 9 then "Sep"
  else if m = 10 then "Oct" else if m = 11 then "Nov" else "Dec"

/-- The fixed English weekday names (0 = Sunday). -/
def weekdayLongName : WdKey → String
  | .wd n =>
      if n = 0 then "Sunday" else if n = 1 then "Monday"
      else if n = 2 then "Tuesday" else if n = 3 then "Wednesday"
      else if n = 4 then "Thursday" else if n = 5 then "Friday"
      else "Saturday"
  | .invalid => "Invalid Date"

/-- Render a week-label string. -/
def renderWeekStr : WeekStr → String
  | .lab l =>
      monthShortName l.sm ++ " " ++ toString l.sd ++ " – "
        ++ monthShortName l.em ++ " " ++ toString l.ed ++ ", " ++ toString l.y
  | .invalid => "Invalid Date – Invalid Date, NaN"
  | .empty => ""

/-- Render a month-label string. -/
def renderMonthStr : MonthStr → String
  | .lab m y => monthShortName m ++ " " ++ toString y
  | .invalid => "Invalid Date"
  | .empty => ""

/-- Render a year string. -/
def renderYearStr : YearStr → String
  | .num y => toString y
  | .nan => "NaN"
  | .empty => ""

/-- Render the view-mode name as interpolated into the no-period message. -/
def vmName : ViewMode → String
  | .week => "week"
  | .month => "month"
  | .year => "year"

/-- Render a delta classification to its sentence. -/
def renderDelta : DeltaKind → String
  | .steady => "🟰 Spending is steady compared to last week."
  | .started => "🆕 You started spending this week (no spend last week)."
  | .up p => "📈 Up " ++ p ++ "% vs last week."
  | .down p => "📉 Down " ++ p ++ "% vs last week."
  | .same => "🟰 Same as last week."

/-- Comma-join the weekday names of a no-spend list. -/
def joinWeekdays : List WdKey → String
  | [] => ""
  | [w] => weekdayLongName w
  | w :: t => weekdayLongName w ++ ", " ++ joinWeekdays t

/-- Render a statement to the exact string the component pushes. -/
def renderStmt : Stmt → String
  | .noData => "No data yet to analyze your spending."
  | .selectWeek => "Select a week to see insights."
  | .noPeriod vm => "No " ++ vmName vm ++ " data available for the selected period."
  | .snapWeek w => "📅 Weekly snapshot for <b>" ++ renderWeekStr w ++ "</b>"
  | .snapMonth m => "🗓️ Monthly snapshot for <b>" ++ renderMonthStr m ++ "</b>"
  | .snapYear y => "📊 Yearly snapshot for <b>" ++ renderYearStr y ++ "</b>"
  | .topCat n a => "🏆 Top category: <b>" ++ n ++ "</b> (RM " ++ a ++ ")."
  | .busiest w a => "📌 Busiest day: <b>" ++ weekdayLongName w ++ "</b> (RM " ++ a ++ ")."
  | .total a => "💰 Total spent: <b>RM " ++ a ++ "</b>."
  | .avgDay a => "📉 Average per day: <b>RM " ++ a ++ "</b>."
  | .delta k => renderDelta k
  | .noSpend ds => "🧘 No-spend days: <b>" ++ joinWeekdays ds ++ "</b>."

/-! ## Dictionary lemmas -/

theorem lookupMap_updMap_self {K V : Type} [DecidableEq K] :
    ∀ (m : List (K × V)) (k : K) (v : V),
      lookupMap (updMap m k v) k = some v
  | [], k, v => by simp [updMap, lookupMap]
  | (k0, v0) :: t, k, v => by
      by_cases h : k0 = k
      · simp [updMap, lookupMap, h]
      · simp only [updMap, if_neg h, lookupMap]
        exact lookupMap_updMap_self t k v

theorem mem_keysOf_updMap {K V : Type} [DecidableEq K] :
    ∀ (m : List (K × V)) (k : K) (v : V) (a : K),
      a ∈ keysOf (updMap m k v) ↔ a ∈ keysOf m ∨ a = k
  | [], k, v, a => by simp [updMap, keysOf]
  | (k0, v0) :: t, k, v, a => by
      by_cases h : k0 = k
      · subst h
        simp [updMap, keysOf]
        tauto
      · have ih := mem_keysOf_updMap t k v a
        simp only [keysOf, List.map_cons, List.mem_cons] at ih ⊢
        simp only [updMap, if_neg h, List.map_cons, List.mem_cons]
        tauto

theorem keysOf_updMap_of_mem {K V : Type} [DecidableEq K] :
    ∀ (m : List (K × V)) (k : K) (v : V), k ∈ keysOf m →
      keysOf (updMap m k v) = keysOf m
  | [], k, v, h => by simp [keysOf] at h
  | (k0, v0) :: t, k, v, h => by
      by_cases hk : k0 = k
      · subst hk
        simp [updMap, keysOf]
      · simp only [keysOf, List.map_cons, List.mem_cons] at h
        rcases h with h | h
        · exact absurd h.symm hk
        · have ih := keysOf_updMap_of_mem t k v (by simpa [keysOf] using h)
          simp only [keysOf, List.map_cons] at ih ⊢
          simp only [updMap, if_neg hk, List.map_cons, ih]

theorem keysOf_updMap_of_not_mem {K V : Type} [DecidableEq K] :
    ∀ (m : List (K × V)) (k : K) (v : V), k ∉ keysOf m →
      keysOf (updMap m k v) = keysOf m ++ [k]
  | [], k, v, _ => by simp [updMap, keysOf]
  | (k0, v0) :: t, k, v, h => by
      simp only [keysOf, List.map_cons, List.mem_cons] at h
      push_neg at h
      have ih := keysOf_updMap_of_not_mem t k v (by simpa [keysOf] using h.2)
      simp only [keysOf, List.map_cons] at ih ⊢
      simp only [updMap, if_neg (Ne.symm h.1), List.map_cons, ih,
        List.cons_append]

theorem nodup_keysOf_updMap {K V : Type} [DecidableEq K]
    (m : List (K × V)) (k : K) (v : V) (h : (keysOf m).Nodup) :
    (keysOf (updMap m k v)).Nodup := by
  by_cases hk : k ∈ keysOf m
  · rw [keysOf_updMap_of_mem m k v hk]; exact h
  · rw [keysOf_updMap_of_not_mem m k v hk]
    simp [List.nodup_append, h, hk]

theorem sumValsQ_updMap_add {K : Type} [DecidableEq K] :
    ∀ (m : List (K × JSNum)) (k : K) (a : ℚ),
      sumValsQ (updMap m k (some (getOrZero m k + a))) = sumValsQ m + a
  | [], k, a => by simp [updMap, sumValsQ, getOrZero, lookupMap, orZero]
  | (k0, v0) :: t, k, a => by
      by_cases h : k0 = k
      · subst h
        simp [updMap, sumValsQ, getOrZero, lookupMap, orZero]
        ring
      · simp only [updMap, if_neg h, sumValsQ, List.map_cons, List.sum_cons,
          getOrZero, lookupMap]
        have ih := sumValsQ_updMap_add t k a
        simp only [sumValsQ, getOrZero] at ih
        rw [ih]
        ring

/-! ## Calendar and weekday facts -/

set_option maxHeartbeats 800000 in
/-- The civil date produced by `civilOfDay` has a month in `1..12` and a
day in `1..31`. -/
theorem civilOfDay_bounds (z : Int) :
    1 ≤ (civilOfDay z).m ∧ (civilOfDay z).m ≤ 12 ∧
    1 ≤ (civilOfDay z).d ∧ (civilOfDay z).d ≤ 31 := by
  simp only [civilOfDay]
  set d0 : Int := z + 719162 with hd0
  set r1 : Nat := (d0 % 146097).toNat with hr1
  set b : Nat := min (r1 / 36524) 3 with hb
  set r2 : Nat := r1 - 36524 * b with hr2
  set c : Nat := r2 / 1461 with hc
  set r3 : Nat := r2 % 1461 with hr3
  set e : Nat := min (r3 / 365) 3 with he
  set doy : Nat := r3 - 365 * e with hdoy
  set y : Int := 400 * ((d0 : Int) / 146097) + 100 * b + 4 * c + (e : Int) + 1 with hy
  have hr1b : r1 < 146097 := by omega
  have hleap : isLeap y = true ↔ (e = 3 ∧ (c ≠ 24 ∨ b = 3)) := by
    rw [isLeap_iff]; omega
  set lb : Nat := if isLeap y then 1 else 0 with hlb
  have hlb1 : lb ≤ 1 := by rw [hlb]; split_ifs <;> omega
  have hdb : doy < 365 + lb := by
    rcases Nat.lt_or_ge doy 365 with hx | hx
    · omega
    · have h365 : doy = 365 := by omega
      have hLt : isLeap y = true := hleap.mpr (by omega)
      rw [hlb, if_pos hLt]
      omega
  obtain ⟨m, d, hmd⟩ : ∃ m d, monthDayOfDoy doy lb = (m, d) := ⟨_, _, rfl⟩
  obtain ⟨h1, h2, h3, h4, _⟩ := monthDayOfDoy_spec doy lb hlb1 hdb m d hmd
  rw [hmd]
  exact ⟨h1, h2, h3, h4⟩

/-- `getMonday` lands on a Monday, at midnight, shifted back six days from
a Sunday and `weekday − 1` days otherwise. -/
theorem getMonday_spec (t : Int) :
    jsWeekday (getMonday t) = 1 ∧ getMonday t % msPerDay = 0 ∧
    dayNum (getMonday t) =
      dayNum t - (if jsWeekday t = 0 then 6 else jsWeekday t - 1) := by
  simp only [getMonday, setMidnight, addDays, dayNum, jsWeekday, msPerDay]
  split_ifs <;> omega

/-- A Monday-midnight instant is its own `getMonday`. -/
theorem getMonday_of_monday (t : Int) (hw : jsWeekday t = 1)
    (hm : t % msPerDay = 0) : getMonday t = t := by
  simp only [jsWeekday, dayNum, msPerDay] at hw hm
  simp only [getMonday, setMidnight, addDays, dayNum, jsWeekday, msPerDay]
  split_ifs <;> omega

/-- Two instants in the same Monday-to-Sunday week compute the same
Monday. -/
theorem getMonday_eq_of_same_week (t t2 : Int)
    (h1 : dayNum (getMonday t) ≤ dayNum t2)
    (h2 : dayNum t2 ≤ dayNum (getMonday t) + 6) :
    getMonday t2 = getMonday t := by
  simp only [getMonday, setMidnight, addDays, dayNum, jsWeekday, msPerDay]
    at h1 h2 ⊢
  split_ifs at h1 h2 ⊢ <;> omega

/-- Instants eight days apart have Mondays 7 or 14 days apart. -/
theorem getMonday_eight_days (t : Int) :
    dayNum (getMonday (addDays t 8)) = dayNum (getMonday t) + 7 ∨
    dayNum (getMonday (addDays t 8)) = dayNum (getMonday t) + 14 := by
  simp only [getMonday, setMidnight, addDays, dayNum, jsWeekday, msPerDay]
  split_ifs <;> omega

/-! ## More dictionary and traversal lemmas -/

theorem mem_updMap {K V : Type} [DecidableEq K] :
    ∀ (m : List (K × V)) (k : K) (v : V) (p : K × V),
      p ∈ updMap m k v → p ∈ m ∨ p = (k, v)
  | [], k, v, p => by simp [updMap]
  | (k0, v0) :: t, k, v, p => by
      by_cases h : k0 = k
      · simp [updMap, h]
        tauto
      · simp only [updMap, if_neg h, List.mem_cons]
        intro hp
        rcases hp with hp | hp
        · exact Or.inl (by simp [hp])
        · rcases mem_updMap t k v p hp with hx | hx
          · exact Or.inl (by simp [hx])
          · exact Or.inr hx

theorem dedupFirst_subset {α : Type} [DecidableEq α] :
    ∀ (l seen : List α) (a : α), a ∈ dedupFirst l seen → a ∈ l
  | [], _, a => by simp [dedupFirst]
  | b :: t, seen, a => by
      simp only [dedupFirst]
      split_ifs with h
      · intro ha
        exact List.mem_cons_of_mem b (dedupFirst_subset t seen a ha)
      · intro ha
        rcases List.mem_cons.mp ha with ha | ha
        · exact ha ▸ List.mem_cons_self b t
        · exact List.mem_cons_of_mem b (dedupFirst_subset t (b :: seen) a ha)

/-! ## Claim C2 — the date normaliser -/

/-- A record whose `date` field is a string that standard parsing cannot
resolve (e.g. `"not a date"`). -/
def expBadStr : Exp := ⟨.str none, some 1, none⟩

/-- C2 counterexample: on an unparseable date *string*, `parseExpenseDate`
returns an Invalid Date object — a truthy value that is neither `null` nor
a valid calendar date — contradicting "a string yields a valid date exactly
when standard calendar parsing resolves it … it never returns an invalid
date value". -/
theorem claim_C2_cx :
    parseExpenseDate expBadStr = some none ∧
    parseExpenseDate expBadStr ≠ none ∧
    ∀ t : Int, parseExpenseDate expBadStr ≠ some (some t) := by
  refine ⟨rfl, by simp [parseExpenseDate, expBadStr], ?_⟩
  intro t
  simp [parseExpenseDate, expBadStr]

/-- C2 amended: `parseExpenseDate` never raises and never misreports the
shape of the field: an absent/falsy or wrong-typed field yields `null`, a
timestamp object yields its converted date, and a string yields the raw
result of standard parsing — which is an *Invalid Date value* (not `null`)
exactly when the string does not parse. -/
theorem claim_C2_amended (e : Exp) :
    ((e.date = .missing ∨ e.date = .other) → parseExpenseDate e = none) ∧
    (∀ t, e.date = .tsObj t → parseExpenseDate e = some (some t)) ∧
    (∀ p, e.date = .str p → parseExpenseDate e = some p) ∧
    (parseExpenseDate e = some none ↔ e.date = .str none) := by
  rcases e with ⟨d, a, c⟩
  cases d <;> simp [parseExpenseDate]

/-- C2 amended, instantiated at concrete records of each shape. -/
theorem claim_C2_amended_witness :
    parseExpenseDate ⟨.tsObj 0, some 1, none⟩ = some (some 0) ∧
    parseExpenseDate ⟨.missing, some 1, none⟩ = none :=
  ⟨(claim_C2_amended ⟨.tsObj 0, some 1, none⟩).2.1 0 rfl,
   (claim_C2_amended ⟨.missing, some 1, none⟩).1 (Or.inl rfl)⟩

/-! ## Claim C1 — non-numeric amounts in aggregation -/

/-- A record with a valid date (Monday 2025-10-20) and a non-numeric
amount (`Number(exp.amount)` is `NaN`). -/
def expNaNAmt : Exp := ⟨.tsObj (20381 * msPerDay), none, some "Food"⟩

/-- C1 counterexample: `buildDateTotals` adds the *unguarded*
`Number(exp.amount)`, so a record with a valid date and non-numeric amount
leaves a `NaN` bucket total — the bucket value is `none`, not a number,
contradicting "the bucket-totals map adds 0 … so no total is ever NaN". -/
theorem claim_C1_cx :
    buildDateTotals [expNaNAmt] ViewMode.year =
      .ok [(.yr 2025, (none : JSNum))] ∧
    ∀ q : ℚ, buildDateTotals [expNaNAmt] ViewMode.year ≠
      .ok [(.yr 2025, some q)] := by
  constructor
  · rfl
  · intro q h
    rw [show buildDateTotals [expNaNAmt] ViewMode.year =
      .ok [(.yr 2025, (none : JSNum))] from rfl] at h
    simp at h

theorem buildCategoryTotals_aux_some (es : List Exp) :
    ∀ acc, (∀ p ∈ acc, ∃ q : ℚ, (p : String × JSNum).2 = some q) →
      ∀ p ∈ es.foldl
        (fun out e =>
          updMap out (catOf e)
            (some (getOrZero out (catOf e) + orZero e.amount))) acc,
        ∃ q : ℚ, p.2 = some q := by
  induction es with
  | nil => intro acc hacc p hp; exact hacc p hp
  | cons e t ih =>
      intro acc hacc p hp
      refine ih _ ?_ p hp
      intro p2 hp2
      rcases mem_updMap _ _ _ _ hp2 with hx | hx
      · exact hacc p2 hx
      · exact ⟨_, by rw [hx]⟩

theorem buildDateTotalsAux_ok (vm : ViewMode) :
    ∀ (es : List Exp) (out : List (BKey × JSNum)),
      (∀ e ∈ es, vm = .week → e.date ≠ .str none) →
      ∃ m, buildDateTotalsAux vm es out = .ok m
  | [], out, _ => ⟨out, rfl⟩
  | e :: t, out, h => by
      have he := h e (List.mem_cons_self e t)
      have ht : ∀ x ∈ t, vm = .week → x.date ≠ .str none :=
        fun x hx => h x (List.mem_cons_of_mem e hx)
      rcases hd : parseExpenseDate e with _ | d
      · simp only [buildDateTotalsAux, buildDateTotalsStep, hd]
        exact buildDateTotalsAux_ok vm t out ht
      · have hkey : ∃ k, bucketKeyOf vm d = .ok k := by
          rcases d with _ | tt
          · cases vm with
            | week =>
                exfalso
                rcases e with ⟨dd, aa, cc⟩
                cases dd <;> simp [parseExpenseDate] at hd
                exact he rfl (by rw [hd])
            | month => exact ⟨.monInvalid, rfl⟩
            | year => exact ⟨.yrNaN, rfl⟩
          · cases vm with
            | week => exact ⟨_, rfl⟩
            | month => exact ⟨_, rfl⟩
            | year => exact ⟨_, rfl⟩
        rcases hkey with ⟨k, hk⟩
        simp only [buildDateTotalsAux, buildDateTotalsStep, hd, hk]
        exact buildDateTotalsAux_ok vm t _ ht

/-- C1 amended: `buildCategoryTotals` guards the coercion
(`Number(exp.amount) || 0`), so every category total is a plain number —
but `buildDateTotals` adds the raw `Number(exp.amount)` and can leave `NaN`
totals (the counterexample).  Neither function raises on a non-numeric
amount; `buildDateTotals` raises only in week mode on an Invalid-Date
record. -/
theorem claim_C1_amended (es : List Exp) :
    (∀ p ∈ buildCategoryTotals es, ∃ q : ℚ, p.2 = some q) ∧
    (∀ vm, vm ≠ ViewMode.week → ∃ m, buildDateTotals es vm = .ok m) ∧
    ((∀ e ∈ es, e.date ≠ RawDate.str none) →
      ∃ m, buildDateTotals es ViewMode.week = .ok m) := by
  refine ⟨?_, ?_, ?_⟩
  · exact buildCategoryTotals_aux_some es [] (by simp)
  · intro vm hvm
    obtain ⟨m, hm⟩ := buildDateTotalsAux_ok vm es []
      (fun e _ hw => absurd hw hvm)
    exact ⟨_, by rw [buildDateTotals, hm]⟩
  · intro hgood
    obtain ⟨m, hm⟩ := buildDateTotalsAux_ok .week es []
      (fun e he _ => hgood e he)
    exact ⟨_, by rw [buildDateTotals, hm]⟩

/-- C1 amended, instantiated: a concrete record with non-numeric amount
gives the numeric category total `0` and an `ok` (unraised) result in
every mode. -/
theorem claim_C1_amended_witness :
    (∀ p ∈ buildCategoryTotals [expNaNAmt], ∃ q : ℚ, p.2 = some q) ∧
    (∃ m, buildDateTotals [expNaNAmt] ViewMode.year = .ok m) ∧
    (∃ m, buildDateTotals [expNaNAmt] ViewMode.week = .ok m) :=
  ⟨(claim_C1_amended [expNaNAmt]).1,
   (claim_C1_amended [expNaNAmt]).2.1 ViewMode.year (by simp),
   (claim_C1_amended [expNaNAmt]).2.2 (by
      intro e he
      simp only [List.mem_singleton] at he
      rw [he]
      simp [expNaNAmt])⟩

/-! ## Claim C3 — month bucket keys across years -/

/-- October 5, 2024 (epoch day 20001), amount 1. -/
def expOct2024 : Exp := ⟨.tsObj (20001 * msPerDay), some 1, some "Food"⟩

/-- October 5, 2025 (epoch day 20366), amount 2. -/
def expOct2025 : Exp := ⟨.tsObj (20366 * msPerDay), some 2, some "Food"⟩

/-- C3 counterexample: the month bucket key of `buildDateTotals` is the
short month name *alone* (no year), so records from October 2024 and
October 2025 are summed under the single key `"Oct"` (total `1 + 2 = 3`) —
contradicting "the two records are never summed under the same month
bucket key". -/
theorem claim_C3_cx :
    jsFullYear (20001 * msPerDay) = 2024 ∧
    jsFullYear (20366 * msPerDay) = 2025 ∧
    buildDateTotals [expOct2024, expOct2025] ViewMode.month =
      .ok (monthFill [(.mon 10, some ((0 : ℚ) + 1 + 2))]) ∧
    lookupMap (monthFill [(.mon 10, some ((0 : ℚ) + 1 + 2))]) (.mon 10) =
      some (some ((0 : ℚ) + 1 + 2)) ∧
    (0 : ℚ) + 1 + 2 = 3 := by
  refine ⟨rfl, rfl, ?_, ?_, by norm_num⟩
  · rfl
  · rfl

/-- C3 amended: the month *selector* labels
(`getAvailableMonthsInYear`) do carry the four-digit year and only ever
show months of the selected year, and the line-chart caller pre-filters to
a single year (`filterForLine` in month mode keeps only records of the
selected year); but the bucket key itself ignores the year, so cross-year
records that reach `buildDateTotals` together do collide (the
counterexample). -/
theorem claim_C3_amended :
    (∀ (es : List Exp) (yv : Int) (lbl : MonthStr),
      lbl ∈ getAvailableMonthsInYear es (.num yv) →
      ∃ m, lbl = MonthStr.lab m yv) ∧
    (∀ (es : List Exp) (sw : WeekStr) (yv : Int) (e : Exp),
      e ∈ filterForLine es .month sw (.num yv) →
      ∃ t, parseExpenseDate e = some (some t) ∧ jsFullYear t = yv) ∧
    (∀ t1 t2 : Int, (civilOfDay (dayNum t1)).m = (civilOfDay (dayNum t2)).m →
      bucketKeyOf .month (some t1) = bucketKeyOf .month (some t2)) := by
  refine ⟨?_, ?_, ?_⟩
  · intro es yv lbl hmem
    rw [getAvailableMonthsInYear, if_neg (by simp)] at hmem
    rw [jsSortBy, List.mem_mergeSort] at hmem
    have hmem2 := dedupFirst_subset _ _ _ hmem
    rw [List.mem_map] at hmem2
    obtain ⟨d, hd, hlbl⟩ := hmem2
    rw [List.mem_filter] at hd
    obtain ⟨_, hy⟩ := hd
    rcases d with _ | t
    · simp [yearStrOf] at hy
    · simp only [yearStrOf, decide_eq_true_eq, YearStr.num.injEq] at hy
      exact ⟨(civilOfDay (dayNum t)).m, by
        rw [← hlbl]
        simp only [monthStrOf, jsFullYear, MonthStr.lab.injEq, true_and] at hy ⊢
        omega⟩
  · intro es sw yv e hmem
    rw [filterForLine, List.mem_filter] at hmem
    obtain ⟨_, hp⟩ := hmem
    rcases hd : parseExpenseDate e with _ | d
    · rw [hd] at hp; simp at hp
    · rcases d with _ | t
      · rw [hd] at hp; simp [yearStrOf] at hp
      · rw [hd] at hp
        simp only [yearStrOf, decide_eq_true_eq, YearStr.num.injEq] at hp
        exact ⟨t, rfl, hp⟩
  · intro t1 t2 hm
    simp [bucketKeyOf, hm]

/-- C3 amended, instantiated: the 2024 record's month label for year 2024
carries the year, and `filterForLine` for 2025 keeps only the 2025
record. -/
theorem claim_C3_amended_witness :
    (MonthStr.lab 10 2024 ∈
        getAvailableMonthsInYear [expOct2024, expOct2025] (.num 2024) →
      ∃ m, MonthStr.lab 10 2024 = MonthStr.lab m 2024) ∧
    (expOct2025 ∈ filterForLine [expOct2024, expOct2025] .month .empty (.num 2025) →
      ∃ t, parseExpenseDate expOct2025 = some (some t) ∧ jsFullYear t = 2025) ∧
    (MonthStr.lab 10 2024 ∈
        getAvailableMonthsInYear [expOct2024, expOct2025] (.num 2024)) ∧
    (expOct2025 ∈ filterForLine [expOct2024, expOct2025] .month .empty (.num 2025)) :=
  ⟨claim_C3_amended.1 [expOct2024, expOct2025] 2024 (MonthStr.lab 10 2024),
   claim_C3_amended.2.1 [expOct2024, expOct2025] .empty 2025 expOct2025,
   by
    rw [getAvailableMonthsInYear, if_neg (by simp), jsSortBy,
      List.mem_mergeSort]
    decide,
   by decide⟩

/-! ## Claim C8 — the insight-engine guards -/

/-- C8: each guard emits exactly one statement and stops: the empty record
set gives exactly the no-data sentence, week mode with no selected week
gives exactly the select-a-week sentence, and an empty period filter gives
exactly the no-data-for-this-period sentence. -/
theorem claim_C8 :
    (∀ vm sw sm sy, (buildInsights [] vm sw sm sy).map renderStmt =
      ["No data yet to analyze your spending."]) ∧
    (∀ es sm sy, es ≠ [] →
      (buildInsights es .week .empty sm sy).map renderStmt =
        ["Select a week to see insights."]) ∧
    (∀ es vm sw sm sy, es ≠ [] → ¬(vm = .week ∧ sw = .empty) →
      periodFilter es vm sw sm sy = [] →
      (buildInsights es vm sw sm sy).map renderStmt =
        ["No " ++ vmName vm ++ " data available for the selected period."]) := by
  refine ⟨?_, ?_, ?_⟩
  · intro vm sw sm sy
    rw [buildInsights, if_pos rfl]
    rfl
  · intro es sm sy hne
    rw [buildInsights, if_neg hne, if_pos ⟨rfl, rfl⟩]
    rfl
  · intro es vm sw sm sy hne hsel hf
    rw [buildInsights, if_neg hne, if_neg hsel]
    simp only [hf, if_pos rfl]
    rfl

/-- C8, instantiated on concrete inputs for each guard. -/
theorem claim_C8_witness :
    (buildInsights [] ViewMode.week .empty .empty .empty).map renderStmt =
      ["No data yet to analyze your spending."] ∧
    (buildInsights [expOct2024] ViewMode.week .empty .empty .empty).map
        renderStmt = ["Select a week to see insights."] ∧
    (buildInsights [expOct2024] ViewMode.month .empty .empty .empty).map
        renderStmt = ["No month data available for the selected period."] :=
  ⟨claim_C8.1 ViewMode.week .empty .empty .empty,
   claim_C8.2.1 [expOct2024] .empty .empty (by simp),
   claim_C8.2.2 [expOct2024] ViewMode.month .empty .empty .empty (by simp)
     (by simp) (by decide)⟩

/-! ## Claim C4 — the week bucket -/

/-- C4: the computed week starts on the most recent Monday (Sunday shifts
back six days, any other day shifts back `weekday − 1` days, time-of-day
zeroed), ends on that Monday plus 6 days (a Sunday); dates in the same
Monday-to-Sunday week share the label, and dates eight days apart have
different labels. -/
theorem claim_C4 (t t2 : Int) :
    jsWeekday (getMonday t) = 1 ∧
    getMonday t % msPerDay = 0 ∧
    dayNum (getMonday t) =
      dayNum t - (if jsWeekday t = 0 then 6 else jsWeekday t - 1) ∧
    jsWeekday (addDays (getMonday t) 6) = 0 ∧
    (dayNum (getMonday t) ≤ dayNum t2 →
      dayNum t2 ≤ dayNum (getMonday t) + 6 →
      getWeekRangeLabel t2 = getWeekRangeLabel t) ∧
    (t2 = addDays t 8 → getWeekRangeLabel t2 ≠ getWeekRangeLabel t) := by
  obtain ⟨hw, hm, hs⟩ := getMonday_spec t
  refine ⟨hw, hm, hs, ?_, ?_, ?_⟩
  · simp only [getMonday, setMidnight, addDays, dayNum, jsWeekday, msPerDay]
    split_ifs <;> omega
  · intro h1 h2
    rw [getWeekRangeLabel, getWeekRangeLabel,
      getMonday_eq_of_same_week t t2 h1 h2]
  · intro h8 heq
    simp only [getWeekRangeLabel, WeekLabel.mk.injEq] at heq
    obtain ⟨hsm, hsd, _, _, hy⟩ := heq
    have hciv : civilOfDay (dayNum (getMonday t2)) =
        civilOfDay (dayNum (getMonday t)) := by
      rcases hA : civilOfDay (dayNum (getMonday t2)) with ⟨ya, ma, da⟩
      rcases hB : civilOfDay (dayNum (getMonday t)) with ⟨yb, mb, db⟩
      rw [hA, hB] at hsm hsd hy
      simp only at hsm hsd hy
      rw [hsm, hsd, hy]
    have hinj := civilOfDay_inj hciv
    subst h8
    rcases getMonday_eight_days t with h7 | h14 <;> omega

/-- C4, instantiated: a Wednesday instant (with nonzero time of day) in
the week of Monday 2025-10-20, compared against a date in the same week
and one eight days later. -/
theorem claim_C4_witness :
    jsWeekday (getMonday (20383 * msPerDay + 5000)) = 1 ∧
    getWeekRangeLabel (20381 * msPerDay) =
      getWeekRangeLabel (20383 * msPerDay + 5000) ∧
    getWeekRangeLabel (addDays (20383 * msPerDay + 5000) 8) ≠
      getWeekRangeLabel (20383 * msPerDay + 5000) :=
  ⟨(claim_C4 (20383 * msPerDay + 5000) 0).1,
   (claim_C4 (20383 * msPerDay + 5000) (20381 * msPerDay)).2.2.2.2.1
     (by decide) (by decide),
   (claim_C4 (20383 * msPerDay + 5000)
     (addDays (20383 * msPerDay + 5000) 8)).2.2.2.2.2 rfl⟩

/-! ## Claim C9 — the sum invariant -/

theorem sumValsQ_buildCategoryTotals (es : List Exp) :
    sumValsQ (buildCategoryTotals es) = sumAmounts es := by
  suffices h : ∀ acc : List (String × JSNum),
      sumValsQ (es.foldl
        (fun out e =>
          updMap out (catOf e)
            (some (getOrZero out (catOf e) + orZero e.amount))) acc) =
        sumValsQ acc + sumAmounts es by
    have := h []
    simpa [buildCategoryTotals, sumValsQ] using this
  induction es with
  | nil => intro acc; simp [sumAmounts, sumValsQ]
  | cons e t ih =>
      intro acc
      simp only [List.foldl_cons, ih, sumValsQ_updMap_add, sumAmounts,
        List.map_cons, List.sum_cons]
      ring

/-- The pie filter keeps exactly the records with a *valid* parsed date
matching the selected period, provided the selection is not itself the
rendering of an Invalid Date. -/
theorem filterForPie_eq (es : List Exp) (vm : ViewMode)
    (sw : WeekStr) (sm : MonthStr) (sy : YearStr)
    (hsw : sw ≠ WeekStr.invalid) (hsm : sm ≠ MonthStr.invalid)
    (hsy : sy ≠ YearStr.nan) :
    filterForPie es vm sw sm sy = es.filter fun e =>
      match parseExpenseDate e with
      | some (some t) =>
          match vm with
          | .week => getWeekRangeLabelV (some t) = sw
          | .month => monthStrOf (some t) = sm
          | .year => yearStrOf (some t) = sy
      | _ => false := by
  rw [filterForPie]
  apply List.filter_congr
  intro e _
  rcases hd : parseExpenseDate e with _ | d
  · rfl
  · rcases d with _ | tt
    · cases vm with
      | week => simp [getWeekRangeLabelV, Ne.symm hsw]
      | month => simp [monthStrOf, Ne.symm hsm]
      | year => simp [yearStrOf, Ne.symm hsy]
    · rfl

/-- C9: the category totals over the pie-filtered subset sum to exactly
the coerced amounts of the records with a valid, period-matching date;
records whose date does not resolve contribute to no aggregate. -/
theorem claim_C9 (es : List Exp) (vm : ViewMode)
    (sw : WeekStr) (sm : MonthStr) (sy : YearStr)
    (hsw : sw ≠ WeekStr.invalid) (hsm : sm ≠ MonthStr.invalid)
    (hsy : sy ≠ YearStr.nan) :
    sumValsQ (buildCategoryTotals (filterForPie es vm sw sm sy)) =
      sumAmounts (es.filter fun e =>
        match parseExpenseDate e with
        | some (some t) =>
            match vm with
            | .week => getWeekRangeLabelV (some t) = sw
            | .month => monthStrOf (some t) = sm
            | .year => yearStrOf (some t) = sy
        | _ => false) := by
  rw [filterForPie_eq es vm sw sm sy hsw hsm hsy,
    sumValsQ_buildCategoryTotals]

/-- C9, instantiated: one in-week record, one out-of-week record and one
unparseable-date record; only the first is counted. -/
theorem claim_C9_witness :
    sumValsQ (buildCategoryTotals (filterForPie
        [expOct2025, expOct2024, expBadStr] ViewMode.year
        .empty .empty (.num 2025))) =
      sumAmounts ([expOct2025, expOct2024, expBadStr].filter fun e =>
        match parseExpenseDate e with
        | some (some t) =>
            match ViewMode.year with
            | .week => getWeekRangeLabelV (some t) = WeekStr.empty
            | .month => monthStrOf (some t) = MonthStr.empty
            | .year => yearStrOf (some t) = YearStr.num 2025
        | _ => false) :=
  claim_C9 [expOct2025, expOct2024, expBadStr] ViewMode.year
    .empty .empty (.num 2025) (by simp) (by simp) (by simp)

/-! ## Claim C5 — bucket-key completeness -/

theorem lookupMap_isSome_iff_mem {K V : Type} [DecidableEq K] :
    ∀ (m : List (K × V)) (k : K), (lookupMap m k).isSome ↔ k ∈ keysOf m
  | [], k => by simp [lookupMap, keysOf]
  | (k0, v0) :: t, k => by
      by_cases h : k0 = k
      · simp [lookupMap, keysOf, h]
      · simp only [lookupMap, if_neg h, keysOf, List.map_cons, List.mem_cons]
        rw [lookupMap_isSome_iff_mem t k]
        simp [keysOf, Ne.symm h]

theorem mem_monthOrder (m : Nat) :
    BKey.mon m ∈ monthOrder ↔ 1 ≤ m ∧ m ≤ 12 := by
  rw [monthOrder]
  simp only [List.mem_map, List.mem_range, BKey.mon.injEq]
  constructor
  · rintro ⟨i, hi, rfl⟩
    omega
  · intro h
    exact ⟨m - 1, by omega, by omega⟩

theorem buildDateTotalsAux_keys (vm : ViewMode) :
    ∀ (es : List Exp) (acc out : List (BKey × JSNum)),
      buildDateTotalsAux vm es acc = .ok out →
      ((keysOf acc).Nodup → (keysOf out).Nodup) ∧
      ∀ k ∈ keysOf out, k ∈ keysOf acc ∨
        ∃ e ∈ es, ∃ d, parseExpenseDate e = some d ∧
          bucketKeyOf vm d = .ok k
  | [], acc, out, h => by
      simp only [buildDateTotalsAux, Except.ok.injEq] at h
      subst h
      exact ⟨id, fun k hk => Or.inl hk⟩
  | e :: t, acc, out, h => by
      rcases hd : parseExpenseDate e with _ | d
      · simp only [buildDateTotalsAux, buildDateTotalsStep, hd] at h
        obtain ⟨hnd, horig⟩ := buildDateTotalsAux_keys vm t acc out h
        refine ⟨hnd, fun k hk => ?_⟩
        rcases horig k hk with hx | ⟨e2, he2, hw⟩
        · exact Or.inl hx
        · exact Or.inr ⟨e2, List.mem_cons_of_mem e he2, hw⟩
      · rcases hb : bucketKeyOf vm d with u | key
        · simp only [buildDateTotalsAux, buildDateTotalsStep, hd, hb] at h
          exact Except.noConfusion h
        · simp only [buildDateTotalsAux, buildDateTotalsStep, hd, hb] at h
          obtain ⟨hnd, horig⟩ := buildDateTotalsAux_keys vm t _ out h
          constructor
          · intro hacc
            exact hnd (nodup_keysOf_updMap _ _ _ hacc)
          · intro k hk
            rcases horig k hk with hx | ⟨e2, he2, hw⟩
            · rcases (mem_keysOf_updMap acc key _ k).mp hx with hy | hy
              · exact Or.inl hy
              · exact Or.inr ⟨e, List.mem_cons_self e t, d, hd, hy ▸ hb⟩
            · exact Or.inr ⟨e2, List.mem_cons_of_mem e he2, hw⟩

/-- The month-fill pass: afterwards the keys are the old keys plus the
filled month names, and key uniqueness is preserved. -/
theorem monthFill_fold_keys :
    ∀ (ks : List BKey) (out : List (BKey × JSNum)),
      (∀ k, k ∈ keysOf (ks.foldl (fun o k2 =>
          if (lookupMap o k2).isSome then o else updMap o k2 (some 0)) out) ↔
        (k ∈ keysOf out ∨ k ∈ ks)) ∧
      ((keysOf out).Nodup →
        (keysOf (ks.foldl (fun o k2 =>
          if (lookupMap o k2).isSome then o else updMap o k2 (some 0)) out)).Nodup)
  | [], out => by simp
  | k0 :: ks, out => by
      simp only [List.foldl_cons]
      by_cases h : (lookupMap out k0).isSome
      · rw [if_pos h]
        have hmem : k0 ∈ keysOf out := (lookupMap_isSome_iff_mem out k0).mp h
        obtain ⟨hiff, hnd⟩ := monthFill_fold_keys ks out
        refine ⟨fun k => ?_, hnd⟩
        rw [hiff k]
        simp only [List.mem_cons]
        constructor
        · tauto
        · rintro (hx | rfl | hx)
          · exact Or.inl hx
          · exact Or.inl hmem
          · exact Or.inr hx
      · rw [if_neg h]
        have hmem : k0 ∉ keysOf out := fun hx =>
          h ((lookupMap_isSome_iff_mem out k0).mpr hx)
        obtain ⟨hiff, hnd⟩ := monthFill_fold_keys ks (updMap out k0 (some 0))
        constructor
        · intro k
          rw [hiff k, mem_keysOf_updMap]
          simp only [List.mem_cons]
          tauto
        · intro hacc
          exact hnd (nodup_keysOf_updMap _ _ _ hacc)

/-- `parseExpenseDate` yields an Invalid Date only from an unparseable
date string. -/
theorem parse_invalid_shape (e : Exp) (h : parseExpenseDate e = some none) :
    e.date = RawDate.str none := by
  rcases e with ⟨d, a, c⟩
  cases d <;> simp_all [parseExpenseDate]

/-- C5 amended: provided no record carries an unparseable date *string*
(whose Invalid Date value the code fails to exclude — see the
counterexample), the month-view bucket map has exactly the twelve month
keys, and in week and year view every key is the bucket of at least one
record with a valid parseable date. -/
theorem claim_C5_amended (es : List Exp) (hne : es ≠ [])
    (hgood : ∀ e ∈ es, e.date ≠ RawDate.str none) :
    (∃ out, buildDateTotals es ViewMode.month = .ok out ∧
      (keysOf out).Nodup ∧ (keysOf out).length = 12 ∧
      ∀ k, k ∈ keysOf out ↔ k ∈ monthOrder) ∧
    (∀ vm, vm = ViewMode.week ∨ vm = ViewMode.year →
      ∀ out, buildDateTotals es vm = .ok out →
        ∀ k ∈ keysOf out, ∃ e ∈ es, ∃ t : Int,
          parseExpenseDate e = some (some t) ∧
          bucketKeyOf vm (some t) = .ok k) := by
  constructor
  · obtain ⟨m0, hm0⟩ := buildDateTotalsAux_ok ViewMode.month es []
      (fun e _ hw => by cases hw)
    refine ⟨monthFill m0, ?_, ?_, ?_, ?_⟩
    · rw [buildDateTotals, hm0]
      simp [monthFill]
    all_goals {
      obtain ⟨hnd0, horig⟩ := buildDateTotalsAux_keys ViewMode.month es [] m0 hm0
      have hnodup0 : (keysOf m0).Nodup := hnd0 (by simp [keysOf])
      have hsub : ∀ k ∈ keysOf m0, k ∈ monthOrder := by
        intro k hk
        rcases horig k hk with hx | ⟨e, he, d, hdp, hb⟩
        · simp [keysOf] at hx
        · rcases d with _ | tt
          · exact absurd (parse_invalid_shape e hdp) (hgood e he)
          · simp only [bucketKeyOf, Except.ok.injEq] at hb
            obtain ⟨h1, h2, _, _⟩ := civilOfDay_bounds (dayNum tt)
            rw [← hb]
            exact (mem_monthOrder _).mpr ⟨h1, h2⟩
      obtain ⟨hiff, hndf⟩ := monthFill_fold_keys monthOrder m0
      have hkeys : ∀ k, k ∈ keysOf (monthFill m0) ↔ k ∈ monthOrder := by
        intro k
        rw [monthFill, hiff k]
        constructor
        · rintro (hx | hx)
          · exact hsub k hx
          · exact hx
        · exact Or.inr
      have hnd : (keysOf (monthFill m0)).Nodup := hndf hnodup0
      have hperm : List.Perm (keysOf (monthFill m0)) monthOrder :=
        (List.perm_ext_iff_of_nodup hnd (by decide)).mpr hkeys
      first
        | exact hnd
        | exact hperm.length_eq.trans (by decide)
        | exact hkeys
    }
  · intro vm hvm out hout k hk
    rcases haux : buildDateTotalsAux vm es [] with u | m0
    · simp only [buildDateTotals, haux] at hout
      exact Except.noConfusion hout
    · simp only [buildDateTotals, haux] at hout
      have hvmm : ¬ vm = ViewMode.month := by
        rcases hvm with h | h <;> rw [h] <;> simp
      rw [if_neg hvmm] at hout
      simp only [Except.ok.injEq] at hout
      subst hout
      obtain ⟨_, horig⟩ := buildDateTotalsAux_keys vm es [] m0 haux
      rcases horig k hk with hx | ⟨e, he, d, hdp, hb⟩
      · simp [keysOf] at hx
      · rcases d with _ | tt
        · exact absurd (parse_invalid_shape e hdp) (hgood e he)
        · exact ⟨e, he, tt, hdp, hb⟩

/-- C5 counterexample: a single record whose date is an unparseable
string is *not* excluded (its Invalid Date is truthy): in month view it
adds a 13th key (`"Invalid Date"`) beside the twelve filled months. -/
theorem claim_C5_cx :
    (buildDateTotals [⟨.str none, some 5, none⟩] ViewMode.month).toOption.map
        (fun m => (keysOf m).length) = some 13 ∧
    (buildDateTotals [⟨.str none, some 5, none⟩] ViewMode.month).toOption.map
        (fun m => (keysOf m).contains BKey.monInvalid) = some true := by
  constructor
  · decide
  · decide

/-- C5 amended, instantiated on a two-record list (valid date and null
date). -/
theorem claim_C5_amended_witness :
    (∃ out, buildDateTotals [expOct2025, ⟨.missing, some 2, none⟩]
        ViewMode.month = .ok out ∧
      (keysOf out).Nodup ∧ (keysOf out).length = 12 ∧
      ∀ k, k ∈ keysOf out ↔ k ∈ monthOrder) :=
  (claim_C5_amended [expOct2025, ⟨.missing, some 2, none⟩] (by simp)
    (by intro e he
        simp only [List.mem_cons, List.not_mem_nil, or_false,
          List.mem_singleton] at he
        rcases he with rfl | rfl
        · simp [expOct2025]
        · simp)).1

/-! ## Claim C10 — the axis sorter -/

theorem jsKeyLe_trans (x y z : Option Int) (h1 : jsKeyLe x y = true)
    (h2 : jsKeyLe y z = true) : jsKeyLe x z = true := by
  rcases x with _ | x <;> rcases y with _ | y <;> rcases z with _ | z <;>
    simp_all [jsKeyLe] <;> omega

theorem jsKeyLe_total (x y : Option Int) :
    (jsKeyLe x y || jsKeyLe y x) = true := by
  rcases x with _ | x <;> rcases y with _ | y <;> simp [jsKeyLe] <;> omega

/-- C10: for every bucket-totals map, the axis sorter returns exactly the
map's keys (a permutation, nothing added or dropped), in canonical
calendar order in month view, ascending numeric year order in year view,
and ascending chronological order of the denoted dates in week view. -/
theorem claim_C10 (obj : List (BKey × JSNum)) :
    (List.Perm (sortXAxisKeys .month obj) (keysOf obj) ∧
     List.Perm (sortXAxisKeys .year obj) (keysOf obj) ∧
     List.Perm (sortXAxisKeys .week obj) (keysOf obj)) ∧
    (sortXAxisKeys .month obj).Pairwise (fun a b => monthIdx a ≤ monthIdx b) ∧
    ((∀ k ∈ keysOf obj, ∃ y, k = BKey.yr y) →
      (sortXAxisKeys .year obj).Pairwise fun a b =>
        ∀ ya yb, a = BKey.yr ya → b = BKey.yr yb → ya ≤ yb) ∧
    ((∀ k ∈ keysOf obj, ∃ t, weekKeyTime k = some t) →
      (sortXAxisKeys .week obj).Pairwise fun a b =>
        ∀ ta tb, weekKeyTime a = some ta → weekKeyTime b = some tb →
          ta ≤ tb) := by
  refine ⟨⟨List.mergeSort_perm _ _, List.mergeSort_perm _ _,
    List.mergeSort_perm _ _⟩, ?_, ?_, ?_⟩
  · have hs := @List.sorted_mergeSort BKey
      (fun a b : BKey => decide (monthIdx a ≤ monthIdx b))
      (by intro a b c h1 h2
          simp only [decide_eq_true_eq] at h1 h2 ⊢
          omega)
      (by intro a b
          simp only [Bool.or_eq_true, decide_eq_true_eq]
          omega)
      (keysOf obj)
    exact hs.imp (by simp)
  · intro hk
    have hs := @List.sorted_mergeSort BKey
      (fun a b : BKey => jsKeyLe (yearNumOf a) (yearNumOf b))
      (fun a b c => jsKeyLe_trans _ _ _) (fun a b => jsKeyLe_total _ _)
      (keysOf obj)
    refine hs.imp_of_mem ?_
    intro a b ha hb hab
    intro ya yb hya hyb
    subst hya
    subst hyb
    simpa [jsKeyLe, yearNumOf] using hab
  · intro hk
    have hs := @List.sorted_mergeSort BKey
      (fun a b : BKey => jsKeyLe (weekKeyTime a) (weekKeyTime b))
      (fun a b c => jsKeyLe_trans _ _ _) (fun a b => jsKeyLe_total _ _)
      (keysOf obj)
    refine hs.imp_of_mem ?_
    intro a b ha hb hab
    intro ta tb hta htb
    rw [hta, htb] at hab
    simpa [jsKeyLe] using hab

unseal List.merge List.mergeSort in
/-- C10, instantiated on the year-mode scenario
`{2023: 10, 2021: 5, 2022: 8}`. -/
theorem claim_C10_witness :
    sortXAxisKeys .year
        [(.yr 2023, some 10), (.yr 2021, some 5), (.yr 2022, some 8)] =
      [.yr 2021, .yr 2022, .yr 2023] ∧
    List.Perm
      (sortXAxisKeys .year
        [(.yr 2023, some 10), (.yr 2021, some 5), (.yr 2022, some 8)])
      (keysOf [(.yr 2023, some 10), (.yr 2021, some 5), (.yr 2022, some 8)]) ∧
    (sortXAxisKeys .year
        [(.yr 2023, some 10), (.yr 2021, some 5), (.yr 2022, some 8)]).Pairwise
      (fun a b => ∀ ya yb, a = BKey.yr ya → b = BKey.yr yb → ya ≤ yb) :=
  ⟨by decide,
   (claim_C10 [(.yr 2023, some 10), (.yr 2021, some 5),
     (.yr 2022, some 8)]).1.2.1,
   (claim_C10 [(.yr 2023, some 10), (.yr 2021, some 5),
     (.yr 2022, some 8)]).2.2.1 (by
       intro k hk
       simp only [keysOf, List.map_cons, List.map_nil, List.mem_cons,
         List.not_mem_nil, or_false] at hk
       rcases hk with rfl | rfl | rfl
       · exact ⟨2023, rfl⟩
       · exact ⟨2021, rfl⟩
       · exact ⟨2022, rfl⟩)⟩

/-! ## Claim C7 — decimal places -/

theorem digitChar_ne_dot : ∀ k : Nat, k < 10 → Nat.digitChar k ≠ '.' := by
  decide

theorem fracDigits_ne_dot (r f : Nat) :
    ∀ c ∈ fracDigits r f, c ≠ '.' := by
  intro c hc
  rw [fracDigits] at hc
  simp only [List.mem_map, List.mem_range] at hc
  obtain ⟨i, _, rfl⟩ := hc
  exact digitChar_ne_dot _ (Nat.mod_lt _ (by norm_num))

theorem length_fracDigits (r f : Nat) : (fracDigits r f).length = f := by
  rw [fracDigits, List.length_map, List.length_range]

theorem decimalsAfterDot_jsToFixedStr (n : Int) (f : Nat) (hf : f ≠ 0) :
    decimalsAfterDot (jsToFixedStr n f) = some f := by
  rw [jsToFixedStr]
  simp only [if_neg hf]
  set s1 : String :=
    (if n < 0 then "-" else "") ++ Nat.repr (n.natAbs / 10 ^ f) with hs1
  have hdata : (s1 ++ ("." ++ String.mk (fracDigits (n.natAbs % 10 ^ f) f))).data =
      s1.data ++ ('.' :: fracDigits (n.natAbs % 10 ^ f) f) := by
    rw [String.data_append, String.data_append]
    rfl
  rw [decimalsAfterDot, hdata]
  rw [if_pos (by simp)]
  congr 1
  rw [List.reverse_append, List.reverse_cons, List.append_assoc,
    List.singleton_append]
  rw [List.takeWhile_append_of_pos (by
    intro a ha
    rw [List.mem_reverse] at ha
    simpa using fracDigits_ne_dot _ _ a ha)]
  rw [List.takeWhile_cons]
  simp only [decide_eq_true_eq]
  rw [if_neg (by simp)]
  simp [length_fracDigits]

theorem decimalsAfterDot_jsToFixed (x : ℚ) (f : Nat) (hf : f ≠ 0) :
    decimalsAfterDot (jsToFixed x f) = some f :=
  decimalsAfterDot_jsToFixedStr _ f hf

/-- The per-statement decimal-place discipline the insight engine actually
observes: two decimals on every monetary amount, one decimal on the
week-over-week percentage. -/
def stmtDecimalsOk : Stmt → Prop
  | .topCat _ a => decimalsAfterDot a = some 2
  | .busiest _ a => decimalsAfterDot a = some 2
  | .total a => decimalsAfterDot a = some 2
  | .avgDay a => decimalsAfterDot a = some 2
  | .delta (.up p) => decimalsAfterDot p = some 1
  | .delta (.down p) => decimalsAfterDot p = some 1
  | _ => True

theorem weekDelta_decimals (es : List Exp) (sw : WeekStr) (ts : ℚ) :
    stmtDecimalsOk (.delta (weekDelta es sw ts)) := by
  simp only [weekDelta]
  split_ifs <;>
    first
      | trivial
      | exact decimalsAfterDot_jsToFixed _ 1 (by simp)

theorem mem_ite_singleton {α : Type} {c : Prop} [Decidable c] {s x : α}
    (h : s ∈ (if c then [x] else [])) : s = x := by
  split_ifs at h
  · simpa using h
  · simp at h

theorem assembleStmts_decimals (vm : ViewMode) (sw : WeekStr)
    (sm : MonthStr) (sy : YearStr) (tc : Option (String × JSNum))
    (td : Option (WdKey × JSNum)) (ts avg : ℚ) (dk : DeltaKind)
    (ds : List WdKey) (hdk : stmtDecimalsOk (.delta dk)) :
    ∀ s ∈ assembleStmts vm sw sm sy tc td ts avg dk ds,
      stmtDecimalsOk s := by
  intro s hs
  simp only [assembleStmts, List.mem_append] at hs
  rcases hs with ((((((h | h) | h) | h) | h) | h) | h) | h
  · rw [mem_ite_singleton h]; trivial
  · rw [mem_ite_singleton h]; trivial
  · rw [mem_ite_singleton h]; trivial
  · rcases tc with _ | p
    · simp at h
    · simp only [List.mem_singleton] at h
      subst h
      exact decimalsAfterDot_jsToFixed _ 2 (by simp)
  · rcases td with _ | p
    · simp at h
    · simp only [List.mem_singleton] at h
      subst h
      exact decimalsAfterDot_jsToFixed _ 2 (by simp)
  · rcases List.mem_cons.mp h with rfl | h2
    · exact decimalsAfterDot_jsToFixed _ 2 (by simp)
    · rcases List.mem_singleton.mp h2 with rfl
      exact decimalsAfterDot_jsToFixed _ 2 (by simp)
  · rw [mem_ite_singleton h]; exact hdk
  · split_ifs at h with h1 h2
    · simp at h
    · rw [List.mem_singleton.mp h]; trivial
    · simp at h

/-- C7 amended: every *monetary* amount rendered in an insight statement
(top-category, busiest-day, total spend, average per day) has exactly two
decimal places, but the week-over-week percentage is rendered with
`toFixed(1)` — exactly one decimal place (see the counterexample). -/
theorem claim_C7_amended (es : List Exp) (vm : ViewMode) (sw : WeekStr)
    (sm : MonthStr) (sy : YearStr) :
    ∀ s ∈ buildInsights es vm sw sm sy, stmtDecimalsOk s := by
  intro s hs
  simp only [buildInsights] at hs
  split_ifs at hs
  · rw [List.mem_singleton.mp hs]; trivial
  · rw [List.mem_singleton.mp hs]; trivial
  · rw [List.mem_singleton.mp hs]; trivial
  · exact assembleStmts_decimals _ _ _ _ _ _ _ _ _ _
      (weekDelta_decimals _ _ _) s hs
  · exact assembleStmts_decimals _ _ _ _ _ _ _ _ _ _
      (weekDelta_decimals _ _ _) s hs

/-- C7 amended, instantiated at a concrete input and a concrete member of
its insight list. -/
theorem claim_C7_amended_witness :
    Stmt.noData ∈ buildInsights [] ViewMode.week .empty .empty .empty ∧
    stmtDecimalsOk Stmt.noData :=
  ⟨by decide,
   claim_C7_amended [] ViewMode.week .empty .empty .empty Stmt.noData
     (by decide)⟩

/-! ## Claim C6 — the week-over-week delta -/

theorem getWeekRangeLabelV_some (t : Int) :
    getWeekRangeLabelV (some t) = .lab (getWeekRangeLabel t) := rfl

theorem getMonday_midnight (t : Int) :
    getMonday t = dayNum (getMonday t) * msPerDay := by
  simp only [getMonday, setMidnight, addDays, dayNum, jsWeekday, msPerDay]
  split_ifs <;> omega

/-- String-parsing the selected week's own label recovers exactly its
Monday instant (the calendar round trip). -/
theorem selMondayInstant_label (w : Int) :
    selMondayInstant (.lab (getWeekRangeLabel w)) = some (getMonday w) := by
  show (if civilOfDay (dayOfCivil (civilOfDay (dayNum (getMonday w)))) =
      civilOfDay (dayNum (getMonday w)) then
      some (dayOfCivil (civilOfDay (dayNum (getMonday w))) * msPerDay)
    else none) = some (getMonday w)
  rw [dayOfCivil_civilOfDay, if_pos rfl]
  exact congrArg some (getMonday_midnight w).symm

/-- The week-over-week classification of `Insights.tsx`, characterised:
the previous week's label is the label of the selected week's Monday
shifted back 7 days, the previous total sums the unfiltered full record
set under that label, and the branch taken is exactly
steady / started-spending / up / down / same by the sign of
`(current − previous) / previous × 100` (unchanged only on exact
equality). -/
theorem weekDelta_spec (es : List Exp) (w : Int) (ts pt : ℚ)
    (hts : 0 ≤ ts) (hpt0 : 0 ≤ pt)
    (hpt : pt = sumAmounts (es.filter fun e =>
      match parseExpenseDate e with
      | none => false
      | some d => getWeekRangeLabelV d =
          WeekStr.lab (getWeekRangeLabel (addDays (getMonday w) (-7))))) :
    weekDelta es (.lab (getWeekRangeLabel w)) ts =
      (if pt = 0 ∧ ts = 0 then .steady
       else if pt = 0 ∧ 0 < ts then .started
       else if pt < ts then .up (jsToFixed ((ts - pt) / pt * 100) 1)
       else if ts < pt then .down (jsToFixed |(ts - pt) / pt * 100| 1)
       else .same) := by
  simp only [weekDelta, selMondayInstant_label, Option.map_some',
    getWeekRangeLabelV_some]
  rw [← hpt]
  by_cases h1 : pt = 0 ∧ ts = 0
  · rw [if_pos h1, if_pos h1]
  · rw [if_neg h1, if_neg h1]
    by_cases h2 : pt = 0 ∧ 0 < ts
    · rw [if_pos h2, if_pos h2]
    · rw [if_neg h2, if_neg h2]
      have hne : pt ≠ 0 := by
        intro h0
        rcases eq_or_lt_of_le hts with he | hl
        · exact h1 ⟨h0, he.symm⟩
        · exact h2 ⟨h0, hl⟩
      have hpos : 0 < pt := lt_of_le_of_ne hpt0 (Ne.symm hne)
      rcases lt_trichotomy pt ts with hlt | heq | hgt
      · have hp : 0 < (ts - pt) / pt * 100 :=
          mul_pos (div_pos (by linarith) hpos) (by norm_num)
        rw [if_pos hp, if_pos hlt]
      · have hp : (ts - pt) / pt * 100 = 0 := by
          rw [heq, sub_self, zero_div, zero_mul]
        rw [if_neg (by rw [hp]; exact lt_irrefl 0),
          if_neg (by rw [hp]; exact lt_irrefl 0),
          if_neg (by rw [heq]; exact lt_irrefl ts),
          if_neg (by rw [heq]; exact lt_irrefl ts)]
      · have hp : (ts - pt) / pt * 100 < 0 :=
          mul_neg_of_neg_of_pos (div_neg_of_neg_of_pos (by linarith) hpos)
            (by norm_num)
        rw [if_neg (by exact not_lt_of_gt hp), if_pos hp,
          if_neg (by exact not_lt_of_gt hgt), if_pos hgt]

/-- C6: in week mode with a selected week, the delta step derives the
preceding week's label by subtracting 7 days from the selected week's
Monday, sums the unfiltered full record set under that label, and
classifies steady / started-spending / up / down / unchanged by the sign
of `(current − previous) / previous × 100`, with "unchanged" exactly on a
zero difference. -/
theorem claim_C6 (es : List Exp) (w : Int) (ts pt : ℚ)
    (hts : 0 ≤ ts) (hpt0 : 0 ≤ pt)
    (hpt : pt = sumAmounts (es.filter fun e =>
      match parseExpenseDate e with
      | none => false
      | some d => getWeekRangeLabelV d =
          WeekStr.lab (getWeekRangeLabel (addDays (getMonday w) (-7))))) :
    weekDelta es (.lab (getWeekRangeLabel w)) ts =
      (if pt = 0 ∧ ts = 0 then .steady
       else if pt = 0 ∧ 0 < ts then .started
       else if pt < ts then .up (jsToFixed ((ts - pt) / pt * 100) 1)
       else if ts < pt then .down (jsToFixed |(ts - pt) / pt * 100| 1)
       else .same) :=
  weekDelta_spec es w ts pt hts hpt0 hpt

/-! ## Concrete week-over-week scenario: current 100, previous 50 -/

/-- Monday 2025-10-20 (epoch day 20381), midnight. -/
def wkMonday : Int := 20381 * msPerDay

/-- 60 spent on the selected week's Monday. -/
def expWkA : Exp := ⟨.tsObj wkMonday, some 60, some "Food"⟩

/-- 40 spent on the selected week's Wednesday. -/
def expWkB : Exp := ⟨.tsObj (wkMonday + 2 * msPerDay), some 40, some "Transport"⟩

/-- 50 spent on the previous week's Monday (2025-10-13). -/
def expWkPrev : Exp := ⟨.tsObj (20374 * msPerDay), some 50, some "Food"⟩

/-- C6, instantiated on the spec's scenario: current week total 100,
previous week total 50 — the delta statement reads exactly
`"📈 Up 100.0% vs last week."`. -/
theorem claim_C6_witness :
    weekDelta [expWkA, expWkB, expWkPrev]
        (.lab (getWeekRangeLabel wkMonday)) 100 = DeltaKind.up "100.0" ∧
    renderDelta (DeltaKind.up "100.0") = "📈 Up 100.0% vs last week." := by
  constructor
  · have hfil : ([expWkA, expWkB, expWkPrev].filter fun e =>
        match parseExpenseDate e with
        | none => false
        | some d => getWeekRangeLabelV d =
            WeekStr.lab (getWeekRangeLabel
              (addDays (getMonday wkMonday) (-7)))) = [expWkPrev] := by
      decide
    have hsum : sumAmounts [expWkPrev] = 50 := by
      simp [sumAmounts, orZero, expWkPrev]
    have h := claim_C6 [expWkA, expWkB, expWkPrev] wkMonday 100 50
      (by norm_num) (by norm_num) (by rw [hfil, hsum])
    rw [h]
    rw [if_neg (by norm_num), if_neg (by norm_num), if_pos (by norm_num)]
    have hfl : ⌊((100 : ℚ) - 50) / 50 * 100 * 10 ^ 1 + 1 / 2⌋ = (1000 : Int) := by
      norm_num
    rw [jsToFixed, hfl]
    decide
  · rfl

/-- In week mode the assembled statement list always carries the delta
statement. -/
theorem assembleStmts_delta_mem (sw : WeekStr) (sm : MonthStr)
    (sy : YearStr) (tc : Option (String × JSNum))
    (td : Option (WdKey × JSNum)) (ts avg : ℚ) (dk : DeltaKind)
    (ds : List WdKey) :
    Stmt.delta dk ∈ assembleStmts .week sw sm sy tc td ts avg dk ds := by
  simp [assembleStmts]

/-- C7 counterexample: in the concrete 100-vs-50 scenario the insight
list contains the delta statement `"📈 Up 100.0% vs last week."`, whose
percentage `"100.0"` has exactly *one* decimal place — contradicting
"every numeric value rendered in an insight statement … is formatted with
exactly two decimal places". -/
theorem claim_C7_cx :
    Stmt.delta (.up "100.0") ∈
      buildInsights [expWkA, expWkB, expWkPrev] ViewMode.week
        (.lab (getWeekRangeLabel wkMonday)) .empty .empty ∧
    decimalsAfterDot "100.0" = some 1 ∧
    renderDelta (.up "100.0") = "📈 Up 100.0% vs last week." := by
  refine ⟨?_, by decide, rfl⟩
  have hpf : periodFilter [expWkA, expWkB, expWkPrev] ViewMode.week
      (.lab (getWeekRangeLabel wkMonday)) .empty .empty =
      [expWkA, expWkB] := by decide
  have hagg : (insightAgg [expWkA, expWkB]).1 =
      [(DKey.day 20381, some ((0 : ℚ) + 60)),
       (DKey.day 20383, some ((0 : ℚ) + 40))] := rfl
  have hts : sumValsQ (insightAgg (periodFilter [expWkA, expWkB, expWkPrev]
      ViewMode.week (.lab (getWeekRangeLabel wkMonday)) .empty .empty)).1 =
      100 := by
    rw [hpf, hagg]
    simp [sumValsQ, orZero]
    norm_num
  have hfil : ([expWkA, expWkB, expWkPrev].filter fun e =>
      match parseExpenseDate e with
      | none => false
      | some d => getWeekRangeLabelV d =
          WeekStr.lab (getWeekRangeLabel
            (addDays (getMonday wkMonday) (-7)))) = [expWkPrev] := by
    decide
  have hsum : sumAmounts [expWkPrev] = 50 := by
    simp [sumAmounts, orZero, expWkPrev]
  have hwd : weekDelta [expWkA, expWkB, expWkPrev]
      (.lab (getWeekRangeLabel wkMonday))
      (sumValsQ (insightAgg (periodFilter [expWkA, expWkB, expWkPrev]
        ViewMode.week (.lab (getWeekRangeLabel wkMonday)) .empty
        .empty)).1) = .up "100.0" := by
    rw [hts]
    have h := weekDelta_spec [expWkA, expWkB, expWkPrev] wkMonday 100 50
      (by norm_num) (by norm_num) (by rw [hfil, hsum])
    rw [h]
    rw [if_neg (by norm_num), if_neg (by norm_num), if_pos (by norm_num)]
    have hfl : ⌊((100 : ℚ) - 50) / 50 * 100 * 10 ^ 1 + 1 / 2⌋ = (1000 : Int) := by
      norm_num
    rw [jsToFixed, hfl]
    decide
  rw [buildInsights]
  rw [if_neg (by decide), if_neg (by decide)]
  simp only []
  rw [if_neg (by rw [hpf]; decide)]
  rw [← hwd]
  exact assembleStmts_delta_mem _ _ _ _ _ _ _ _ _

end ExpenseFlow
